import Mathlib

/-!
Verification development for the file-sharing HTTP server
(`full-server.py`, `http_helpers.py`).

Python strings and byte strings are both modelled as `List Char` (the
payloads handled by the server are treated byte-for-byte; `bytes.decode`
is modelled as the identity).  Python exceptions are modelled with
`Except PyErr`; `None`-returning failure paths with `Option`.
-/

namespace FileShare

abbrev Str := List Char

/-- Shorthand turning a Lean string literal into the `List Char` model. -/
def S (s : String) : Str := s.data

/-- The apostrophe character (used in the status strings of the server). -/
def qc : Char := Char.ofNat 39

/-- Python exception kinds that the modelled code can raise. -/
inductive PyErr
  | keyError
  | valueError
  | attrError
  | indexError
  | nameError
deriving DecidableEq

deriving instance DecidableEq for Except

/-- Characters stripped by Python `str.strip()` with no arguments. -/
def pyIsSpace (c : Char) : Bool :=
  c == ' ' || c == '\t' || c == '\n' || c == '\r' ||
    c == Char.ofNat 11 || c == Char.ofNat 12

/-- Python `s.strip()`. -/
def pyStrip (s : Str) : Str :=
  ((s.dropWhile pyIsSpace).reverse.dropWhile pyIsSpace).reverse

/-- Python `s.lower()` (ASCII model). -/
def pyLower (s : Str) : Str := s.map Char.toLower

/-- Boolean `p` begins `s` test (Python `s.startswith(p)`). -/
def begins : Str → Str → Bool
  | [], _ => true
  | _ :: _, [] => false
  | p :: ps, c :: cs => p == c && begins ps cs

/-- Python `s.endswith(p)`. -/
def finishes (p s : Str) : Bool := begins p.reverse s.reverse

/-- Split `s` at the leftmost occurrence of the pattern `pat`, returning
the parts before and after it.  `none` when `pat` does not occur.
This is the search primitive behind Python `find`, `partition`,
`split` and the `in` test on strings. -/
def splitFirst (pat : Str) : Str → Option (Str × Str)
  | [] => if pat.isEmpty then some ([], []) else none
  | c :: cs =>
    if begins pat (c :: cs) then some ([], (c :: cs).drop pat.length)
    else
      match splitFirst pat cs with
      | some (a, b) => some (c :: a, b)
      | none => none

/-- Python `pat in s`. -/
def containsSub (pat s : Str) : Bool := (splitFirst pat s).isSome

/-- Python `s.partition(sep)`. -/
def pyPartition (sep s : Str) : Str × Str × Str :=
  match splitFirst sep s with
  | some (a, b) => (a, sep, b)
  | none => (s, [], [])

/-- Python `s.find(pat)` (as an `Option` index instead of `-1`). -/
def pyFind (pat s : Str) : Option Nat := (splitFirst pat s).map (fun p => p.1.length)

/-- Fuelled worker for `pySplitAll`. -/
def splitAllGo (sep : Str) : Nat → Str → List Str
  | 0, s => [s]
  | fuel + 1, s =>
    match splitFirst sep s with
    | none => [s]
    | some (a, b) => a :: splitAllGo sep fuel b

/-- Python `s.split(sep)` for a nonempty separator. -/
def pySplitAll (sep s : Str) : List Str := splitAllGo sep s.length s

/-- Hex digit value, as accepted by Python percent-decoding. -/
def hexDigit (c : Char) : Option Nat :=
  if 48 ≤ c.toNat ∧ c.toNat ≤ 57 then some (c.toNat - 48)
  else if 97 ≤ c.toNat ∧ c.toNat ≤ 102 then some (c.toNat - 87)
  else if 65 ≤ c.toNat ∧ c.toNat ≤ 70 then some (c.toNat - 55)
  else none

/-- Python `urllib.parse.unquote` (`plus := false`) and `unquote_plus`
(`plus := true`), modelled at byte level: `%XX` with two hex digits is
decoded, an invalid escape is kept verbatim, and with `plus` set a `+`
becomes a space. -/
def pyUnquoteCore (plus : Bool) : Str → Str
  | [] => []
  | '%' :: h1 :: h2 :: rest =>
    match hexDigit h1, hexDigit h2 with
    | some a, some b => Char.ofNat (16 * a + b) :: pyUnquoteCore plus rest
    | _, _ => '%' :: pyUnquoteCore plus (h1 :: h2 :: rest)
  | c :: rest => (if plus && c == '+' then ' ' else c) :: pyUnquoteCore plus rest

/-- Digit run to a number (`none` when empty or a non-digit occurs). -/
def digitsToNat : Str → Option Nat
  | [] => none
  | cs => go cs 0
where
  go : Str → Nat → Option Nat
    | [], acc => some acc
    | c :: cs, acc =>
      if 48 ≤ c.toNat ∧ c.toNat ≤ 57 then go cs (acc * 10 + (c.toNat - 48))
      else none

/-- Python `int(s)` for a decimal string with optional sign and
surrounding whitespace; `none` models the `ValueError`. -/
def pyInt (s : Str) : Option Int :=
  match pyStrip s with
  | '-' :: ds => (digitsToNat ds).map (fun n => -(n : Int))
  | '+' :: ds => (digitsToNat ds).map (fun n => (n : Int))
  | ds => (digitsToNat ds).map (fun n => (n : Int))

/-- Decimal rendering of a number (Python `"%d" % n` for naturals). -/
def natToStr (n : Nat) : Str := (Nat.repr n).data

/-! ## Header dictionary (`requests.structures.CaseInsensitiveDict`) -/

/-- A case-insensitive header mapping, in insertion order, storing the
most recently used spelling of each key (as `CaseInsensitiveDict` does). -/
abbrev Headers := List (Str × Str)

/-- Case-insensitive lookup, `d[k]` / `k in d`. -/
def ciLookup (d : Headers) (k : Str) : Option Str :=
  match d.find? (fun p => pyLower p.1 == pyLower k) with
  | some p => some p.2
  | none => none

/-- Case-insensitive update `d[k] = v`: replaces in place, else appends. -/
def ciPut (d : Headers) (k v : Str) : Headers :=
  match d with
  | [] => [(k, v)]
  | p :: rest =>
    if pyLower p.1 == pyLower k then (k, v) :: rest else p :: ciPut rest k v

/-- The test `line[0] in " \t"` of `parse_http_headers`: the line is a
header continuation line. -/
def isContLine : Str → Bool
  | [] => false
  | c :: _ => c == ' ' || c == '\t'

/-- Loop body of `parse_http_headers` (`http_helpers.py` lines 131-151):
`key` is the key of the most recently parsed header, the target of
continuation lines.  A leading-whitespace line with no preceding header
raises `KeyError`; a line with no colon raises `ValueError`. -/
def headerLines : List Str → Headers → Str → Except PyErr Headers
  | [], d, _ => .ok d
  | line :: rest, d, key =>
    match line with
    | [] => .ok d
    | c :: _ =>
      if c == ' ' || c == '\t' then
        match ciLookup d key with
        | none => .error .keyError
        | some v => headerLines rest (ciPut d key (v ++ S ", " ++ pyStrip line)) key
      else
        match splitFirst (S ":") line with
        | none => .error .valueError
        | some (k0, v0) =>
          let k := pyStrip k0
          let v := pyStrip v0
          match ciLookup d k with
          | some old => headerLines rest (ciPut d k (old ++ S ", " ++ v)) k
          | none => headerLines rest (ciPut d k v) k

/-- `parse_http_headers` from `http_helpers.py`. -/
def parse_http_headers (s : Str) : Except PyErr Headers :=
  headerLines (pySplitAll (S "\r\n") s) [] []

/-! ## Form content values

Python stores form content in plain `dict`s whose values are strings,
lists of strings, `MultipartFormData` objects, or lists of those.  One
unified value type models all of them. -/

/-- `MultipartFormData` from `http_helpers.py`. -/
structure MultipartFormData where
  fieldname : Str
  mimetype : Option Str
  filename : Str
  data : Str
deriving DecidableEq

/-- A value of a decoded form dictionary. -/
inductive FVal
  | vstr (v : Str)
  | vlist (vs : List Str)
  | vpart (p : MultipartFormData)
  | vparts (ps : List MultipartFormData)
deriving DecidableEq

instance : Inhabited FVal := ⟨.vstr []⟩

/-- Decoded form content: a plain (case-sensitive) dict in insertion
order. -/
abbrev FDict := List (Str × FVal)

/-- Plain dict lookup. -/
def fdLookup (d : FDict) (k : Str) : Option FVal :=
  match d.find? (fun p => p.1 == k) with
  | some p => some p.2
  | none => none

/-- Plain dict update `d[k] = v`: replaces in place, else appends. -/
def fdPut (d : FDict) (k : Str) (v : FVal) : FDict :=
  match d with
  | [] => [(k, v)]
  | p :: rest => if p.1 == k then (k, v) :: rest else p :: fdPut rest k v

/-! ## `parse_urlencoded_params` -/

/-- Loop body of `parse_urlencoded_params` (`http_helpers.py` lines
108-122).  Appending to an existing non-list value models the
`AttributeError` raised by `d[key].append(val)`. -/
def urlParamsGo : List Str → FDict → Except PyErr FDict
  | [], d => .ok d
  | part :: rest, d =>
    match splitFirst (S "=") part with
    | none => urlParamsGo rest d
    | some (k0, v0) =>
      let key := pyUnquoteCore true k0
      let val := pyUnquoteCore true v0
      if finishes (S "[]") key then
        let key2 := key.take (key.length - 2)
        match fdLookup d key2 with
        | none => urlParamsGo rest (fdPut d key2 (.vlist [val]))
        | some (.vlist vs) => urlParamsGo rest (fdPut d key2 (.vlist (vs ++ [val])))
        | some _ => .error .attrError
      else urlParamsGo rest (fdPut d key (.vstr val))

/-- `parse_urlencoded_params` from `http_helpers.py`. -/
def parse_urlencoded_params (s : Str) : Except PyErr FDict :=
  urlParamsGo (pySplitAll (S "&") s) []

/-! ## `parse_content_disposition` and `parse_multipart_form_data` -/

/-- `parse_content_disposition` from `http_helpers.py` (lines 227-248).
The first component is Python's `name`, which stays `None` when no
`name="` parameter is found. -/
def parse_content_disposition (disp0 : Str) : Option Str × Str :=
  let disp := pyStrip disp0
  if ¬ begins (S "form-data;") disp then (some (S "field"), S "unknown-file.txt")
  else
    let nameRes : Option (Option Str) :=
      match splitFirst (S "name=\"") disp with
      | none => some none
      | some (_, b) =>
        match splitFirst (S "\"") b with
        | none => none
        | some (n, _) => some (some n)
    match nameRes with
    | none => (some (S "field"), S "unknown-file.txt")
    | some name? =>
      match splitFirst (S "filename=\"") disp with
      | none => (name?, S "unknown-file.txt")
      | some (_, b2) =>
        match splitFirst (S "\"") b2 with
        | none => (some (S "field"), S "unknown-file.txt")
        | some (fn, _) => (name?, fn)

/-- Insertion of one decoded multipart section into the dict
(`http_helpers.py` lines 206-215).  Appending to an existing non-list
value models the `AttributeError` of `d[name].append(p)`. -/
def multipartStep (d : FDict) (name : Str) (p : MultipartFormData) : Except PyErr FDict :=
  if finishes (S "[]") name then
    let key := name.take (name.length - 2)
    match fdLookup d key with
    | none => .ok (fdPut d key (.vparts [p]))
    | some (.vparts xs) => .ok (fdPut d key (.vparts (xs ++ [p])))
    | some _ => .error .attrError
  else .ok (fdPut d name (.vpart p))

/-- The `while body.startswith(section_start)` loop of
`parse_multipart_form_data` (`http_helpers.py` lines 185-219), fuelled
(every call supplies fuel exceeding the body length, which is enough
because each iteration shrinks the body by at least two bytes).  A
section with no `Content-Disposition` header raises `KeyError`
(line 198); a disposition with no locatable `name="` leaves Python's
`name` as `None` and `name.endswith` then raises `AttributeError`
(line 207).  The final trailing-boundary comparison only logs, so it
does not affect the returned dict. -/
def multipartGo (sep : Str) : Nat → Str → FDict → Except PyErr FDict
  | 0, _, d => .ok d
  | fuel + 1, body, d =>
    if begins (sep ++ S "\r\n") body then
      let body1 := body.drop (sep.length + 2)
      let hsplit := pyPartition (S "\r\n\r\n") body1
      let dsplit := pyPartition (S "\r\n" ++ sep) hsplit.2.2
      let data := dsplit.1
      let body4 := sep ++ dsplit.2.2
      match parse_http_headers hsplit.1 with
      | .error e => .error e
      | .ok hd =>
        let mimetype := ciLookup hd (S "Content-Type")
        match ciLookup hd (S "Content-Disposition") with
        | none => .error .keyError
        | some dv =>
          match parse_content_disposition dv with
          | (none, _) => .error .attrError
          | (some name, filename) =>
            match multipartStep d name ⟨name, mimetype, filename, data⟩ with
            | .error e => .error e
            | .ok d2 => multipartGo sep fuel body4 d2
    else .ok d

/-- `parse_multipart_form_data` from `http_helpers.py` (lines 170-219).
`ctype.split(";", 1)[1]` raises `IndexError` when no `;` occurs. -/
def parse_multipart_form_data (ctype contents : Str) : Except PyErr FDict :=
  match splitFirst (S ";") ctype with
  | none => .error .indexError
  | some (_, rest) =>
    let ctypeParams := pyStrip rest
    if ¬ begins (S "boundary=") (pyLower ctypeParams) then .ok []
    else
      match splitFirst (S "=") ctypeParams with
      | none => .error .indexError
      | some (_, b0) =>
        let boundary :=
          if begins (S "\"") b0 && finishes (S "\"") b0
          then (b0.drop 1).take (b0.length - 2)
          else b0
        multipartGo (S "--" ++ boundary) (contents.length + 1) contents []

/-! ## Server state and the file registry (`full-server.py`)

The module-level registry and statistics variables of `full-server.py`
are gathered into one record.  `share_dir` models the contents of the
`./share/` directory as an association list.  `num_local_files` is an
`Int` because the code can drive it below zero.  Filesystem operations
that can fail (`open`/`write`, `os.remove`) take a boolean oracle
telling whether the operation succeeds. -/

structure ServerState where
  local_file_names : List Str
  local_file_sizes : List Nat
  share_dir : List (Str × Str)
  num_local_files : Int
  num_uploads : Nat
  num_downloads : Nat
deriving DecidableEq

/-- Association-list lookup for the `./share/` directory model. -/
def dirLookup (d : List (Str × Str)) (k : Str) : Option Str :=
  match d.find? (fun p => p.1 == k) with
  | some p => some p.2
  | none => none

/-- Association-list store (overwrite or create) for `./share/`. -/
def dirPut (d : List (Str × Str)) (k v : Str) : List (Str × Str) :=
  match d with
  | [] => [(k, v)]
  | p :: rest => if p.1 == k then (k, v) :: rest else p :: dirPut rest k v

/-- Association-list removal for `./share/`. -/
def dirDrop (d : List (Str × Str)) (k : Str) : List (Str × Str) :=
  match d with
  | [] => []
  | p :: rest => if p.1 == k then rest else p :: dirDrop rest k

/-- `remove_file` from `full-server.py` (lines 108-128).  Note that in
the source the `with stats_updates` block decrementing
`num_local_files` sits after the `with file_updates` block and runs
unconditionally — also when the filename was not in the registry. -/
def remove_file (st : ServerState) (f : Str) (osRemoveOk : Bool) : ServerState × Str :=
  let step :=
    if f ∈ st.local_file_names then
      let i := st.local_file_names.findIdx (· == f)
      ({ st with
          local_file_names := st.local_file_names.eraseIdx i
          local_file_sizes := st.local_file_sizes.eraseIdx i
          share_dir := if osRemoveOk then dirDrop st.share_dir f else st.share_dir },
        if osRemoveOk then S "Success, removed file " ++ [qc] ++ f ++ [qc, '.']
        else S "Problem removing file " ++ [qc] ++ f ++ [qc, '.'])
    else (st, S "No such file " ++ [qc] ++ f ++ [qc, '.'])
  ({ step.1 with num_local_files := step.1.num_local_files - 1 }, step.2)

/-- `add_file` from `full-server.py` (lines 133-154).  As with
`remove_file`, the statistics block incrementing `num_local_files` and
`num_uploads` runs unconditionally, also when the filename already
exists or storing the data fails. -/
def add_file (st : ServerState) (f data : Str) (storeOk : Bool) : ServerState × Str :=
  let step :=
    if f ∈ st.local_file_names then
      (st, S "You have a file named " ++ [qc] ++ f ++ [qc] ++ S " already.")
    else if storeOk then
      ({ st with
          share_dir := dirPut st.share_dir f data
          local_file_names := st.local_file_names ++ [f]
          local_file_sizes := st.local_file_sizes ++ [data.length] },
        S "Success, added file " ++ [qc] ++ f ++ [qc, '.'])
    else (st, S "Problem storing data in local file named " ++ [qc] ++ f ++ [qc, '.'])
  ({ step.1 with
      num_local_files := step.1.num_local_files + 1
      num_uploads := step.1.num_uploads + 1 }, step.2)

/-- `is_shared_file_stored_locally` from `full-server.py`. -/
def is_shared_file_stored_locally (st : ServerState) (f : Str) : Bool :=
  st.local_file_names.contains f

/-- `get_share_file_locally` from `full-server.py`; `none` models the
`OSError` path that returns Python `None`. -/
def get_share_file_locally (st : ServerState) (f : Str) : Option Str :=
  dirLookup st.share_dir f

/-- Registry operations for invariant reasoning: one user-visible
add/remove request with its filesystem-success oracle. -/
inductive FileOp
  | add (f data : Str) (storeOk : Bool)
  | remove (f : Str) (osRemoveOk : Bool)

/-- Apply one registry operation, discarding the status message. -/
def applyOp (st : ServerState) : FileOp → ServerState
  | .add f data ok => (add_file st f data ok).1
  | .remove f ok => (remove_file st f ok).1

/-- Apply a sequence of registry operations. -/
def applyOps (st : ServerState) : List FileOp → ServerState
  | [] => st
  | op :: ops => applyOps (applyOp st op) ops

/-! ## HTTP responses (`full-server.py`)

Each `send_*` helper is modelled as the full byte string written to the
socket (`resp.encode() + b"\r\n" + content`), parameterised by the
connection's keep-alive flag and the `Date:` header value. -/

/-- The `Connection:` response header line. -/
def connectionHeader (ka : Bool) : Str :=
  if ka then S "Connection: keep-alive\r\n" else S "Connection: close\r\n"

/-- `send_404_not_found` from `full-server.py` (lines 269-283): the
bytes written to the socket. -/
def send_404_not_found (ka : Bool) (date : Str) : Str :=
  let content := S "Sorry, the page you requested could not be found :)"
  S "HTTP/1.1 404 NOT FOUND\r\n" ++ S "Date: " ++ date ++ S "\r\n" ++
    connectionHeader ka ++
    S "Content-Length: " ++ natToStr content.length ++ S "\r\n" ++
    S "Content-Type: text/plain\r\n" ++ S "\r\n" ++ content

/-- `urllib.parse.quote` with its default safe set (letters, digits,
`_.-~` and `/`), modelled at byte level. -/
def pyQuote (s : Str) : Str :=
  (s.map quoteChar).flatten
where
  hexUpper (n : Nat) : Char :=
    if n < 10 then Char.ofNat (48 + n) else Char.ofNat (55 + n)
  quoteChar (c : Char) : Str :=
    if (65 ≤ c.toNat ∧ c.toNat ≤ 90) ∨ (97 ≤ c.toNat ∧ c.toNat ≤ 122) ∨
        (48 ≤ c.toNat ∧ c.toNat ≤ 57) ∨ c = '_' ∨ c = '.' ∨ c = '-' ∨ c = '~' ∨ c = '/'
    then [c]
    else ['%', hexUpper (c.toNat / 16 % 16), hexUpper (c.toNat % 16)]

/-- `send_redirect_to_main_page` from `full-server.py` (lines 306-327):
the bytes written to the socket. -/
def send_redirect_to_main_page (ka : Bool) (date : Str) (status : Option Str) : Str :=
  let url := match status with
    | none => S "/shared-files.html"
    | some st => S "/shared-files.html?status=" ++ pyQuote st
  let content := match status with
    | none => S "You should go to the main page please!"
    | some st => S "Status of your last request... " ++ st ++
        S "\nNow go back to the main page please!"
  S "HTTP/1.1 302 TEMPORARY REDIRECT\r\n" ++ S "Date: " ++ date ++ S "\r\n" ++
    connectionHeader ka ++
    S "Content-Length: " ++ natToStr content.length ++ S "\r\n" ++
    S "Content-Type: text/plain\r\n" ++
    S "Location: " ++ url ++ S "\r\n" ++ S "\r\n" ++ content

/-- Abridged model of Python `mimetypes.guess_type`: a few common
extensions, `none` otherwise.  (Only the 200 path of `send_share_file`
depends on it; no claim inspects the guessed type.) -/
def mimeGuess (f : Str) : Option Str :=
  if finishes (S ".txt") f then some (S "text/plain")
  else if finishes (S ".html") f then some (S "text/html")
  else if finishes (S ".pdf") f then some (S "application/pdf")
  else if finishes (S ".png") f then some (S "image/png")
  else none

/-- The 200 response of `send_share_file` (lines 388-399). -/
def shareFileResponse (ka : Bool) (date : Str) (asAttachment : Bool)
    (f : Str) (mt : Option Str) (data : Str) : Str :=
  S "HTTP/1.1 200 OK\r\n" ++ S "Date: " ++ date ++ S "\r\n" ++
    connectionHeader ka ++
    (if asAttachment
      then S "Content-Disposition: attachment; filename=\"" ++ f ++ S "\"\r\n"
      else []) ++
    S "Content-Length: " ++ natToStr data.length ++ S "\r\n" ++
    S "Content-Type: " ++ (match mt with
      | some m => m
      | none => S "application/octet-stream") ++ S "\r\n" ++
    S "\r\n" ++ data

/-- `send_share_file` from `full-server.py` (lines 364-399).  When the
filename is not registered, the local variable `filedata` is never
assigned and the subsequent `if filedata is None` raises
`UnboundLocalError` (modelled as `.nameError`): no response bytes are
written and the exception propagates to `handle_http_connection`, which
drops the connection.  The 404 path is reachable only when the file is
registered but reading it from disk fails. -/
def send_share_file (st : ServerState) (f : Str) (asAttachment ka : Bool)
    (date : Str) : ServerState × Except PyErr Str :=
  let st1 := { st with num_downloads := st.num_downloads + 1 }
  if is_shared_file_stored_locally st1 f then
    match get_share_file_locally st1 f with
    | none => (st1, .ok (send_404_not_found ka date))
    | some data => (st1, .ok (shareFileResponse ka date asAttachment f (mimeGuess f) data))
  else (st1, .error .nameError)

/-! ## Request routing (`handle_http_connection`, lines 460-526) -/

/-- The route selected for one decoded request; form-dependent work
(reading `filename` or `files` fields) happens inside the handler and
is not part of route selection. -/
inductive RouteAction
  | redirectMain (status : Option Str)
  | mainPage
  | shareFile (f : Str) (asAttachment : Bool)
  | staticFile (f : Str)
  | deleteForm
  | deleteUrl (f : Str)
  | upload
  | dashboard
  | notFound
deriving DecidableEq

/-- The dispatch chain of `handle_http_connection` on the request's
method and decoded path (`full-server.py` lines 460-526, conditions in
source order). -/
def route (staticFiles : List Str) (method path : Str) : RouteAction :=
  if method == S "GET" && (path == S "/index.html" || path == S "/") then
    .redirectMain none
  else if method == S "GET" && path == S "/shared-files.html" then .mainPage
  else if method == S "GET" && begins (S "/view/") path then
    .shareFile (path.drop 6) false
  else if method == S "GET" && begins (S "/download/") path then
    .shareFile (path.drop 10) true
  else if method == S "GET" && begins (S "/") path && staticFiles.contains (path.drop 1) then
    .staticFile (path.drop 1)
  else if method == S "POST" && path == S "/delete" then .deleteForm
  else if method == S "POST" && begins (S "/delete/") path then .deleteUrl (path.drop 8)
  else if method == S "POST" && path == S "/upload" then .upload
  else if method == S "GET" && path == S "/dashboard.html" then .dashboard
  else .notFound

/-! ## Receiving one request (`recv_one_request_from_client`)

The `SmartSocket` class is not among the provided sources; its two
primitives are modelled from the spec (§4.1).  The incoming byte stream
of a connection is modelled as the `Str` of bytes the peer sent. -/

/-- Modelled from the spec: `SmartSocket.recv_until` is not in the
provided sources.  Per §4.1 the delimiter search, here for the header
terminator `\r\n\r\n`, "must support both pure CRLF-CRLF and bare LF-LF
terminators (tolerance for malformed clients)" and returns the bytes up
to and including the delimiter, retaining the rest for later reads;
a stream that closes before a delimiter is found fails (`none`). -/
def recv_until_headers : Str → Option (Str × Str)
  | [] => none
  | c :: cs =>
    if begins (S "\r\n\r\n") (c :: cs) then some (S "\r\n\r\n", (c :: cs).drop 4)
    else if begins (S "\n\n") (c :: cs) then some (S "\n\n", (c :: cs).drop 2)
    else
      match recv_until_headers cs with
      | some (a, rest) => some (c :: a, rest)
      | none => none

/-- Modelled from the spec: `SmartSocket.recv_exactly` is not in the
provided sources.  Per §4.1 it reads exactly `n` bytes or fails with a
short-read error when the stream closes early. -/
def recv_exactly (s : Str) (n : Int) : Option Str :=
  if n ≤ (s.length : Int) then some (s.take n.toNat) else none

/-- `HTTPRequest` from `http_helpers.py`.  `version` is `none` always:
source line 275 reads `req.version` without assigning it, so the
dataclass default `None` survives. -/
structure HTTPRequest where
  summary : Str
  method : Str
  urlpath : Str
  version : Option Str
  path : Str
  params : FDict
  headers : Headers
  keep_alive : Bool
  content_length : Int
  content : Str
  plaintext_content : Str
  form_content : FDict
deriving DecidableEq

/-- Body/form decoding of `recv_one_request_from_client` (lines
296-306), given the headers, the declared length and the raw content:
returns the `plaintext_content` and `form_content` fields, or `none`
when a decoding exception aborts the request. -/
def decodeBody (hd : Headers) (clen : Int) (content : Str) : Option (Str × FDict) :=
  if clen > 0 then
    match ciLookup hd (S "Content-Type") with
    | none => some ([], [])
    | some ctype =>
      let lc := pyLower ctype
      let textual := containsSub (S "text/plain") lc || containsSub (S "text/html") lc
      if containsSub (S "application/x-www-form-urlencoded") lc then
        match parse_urlencoded_params content with
        | .error _ => none
        | .ok fd => some (content, fd)
      else if containsSub (S "multipart/form-data") lc then
        match parse_multipart_form_data ctype content with
        | .error _ => none
        | .ok fd => some (if textual then content else [], fd)
      else some (if textual then content else [], [])
  else some ([], [])

/-- `recv_one_request_from_client` from `http_helpers.py` (lines
254-313) over the connection's incoming byte stream.  Every exception
path of the source returns `none` (the function's `except` clauses). -/
def recv_one_request_from_client (stream : Str) : Option HTTPRequest :=
  match recv_until_headers stream with
  | none => none
  | some (reqstring, rest) =>
    match splitFirst (S "\r\n") reqstring with
    | none => none
    | some (firstline, headerPart) =>
      match splitFirst (S " ") firstline with
      | none => none
      | some (method, r1) =>
        match splitFirst (S " ") r1 with
        | none => none
        | some (urlpath, _version) =>
          match parse_http_headers headerPart with
          | .error _ => none
          | .ok hd =>
            let pathParams : Except PyErr (Str × FDict) :=
              match splitFirst (S "?") urlpath with
              | some (p0, q0) =>
                match parse_urlencoded_params q0 with
                | .error e => .error e
                | .ok d => .ok (pyUnquoteCore false p0, d)
              | none => .ok (pyUnquoteCore false urlpath, [])
            match pathParams with
            | .error _ => none
            | .ok (path, params) =>
              let keepAlive := match ciLookup hd (S "Connection") with
                | some v => pyLower v == S "keep-alive"
                | none => false
              let lenAndContent : Option (Int × Str) :=
                match ciLookup hd (S "Content-Length") with
                | some lv =>
                  match pyInt lv with
                  | none => none
                  | some n =>
                    match recv_exactly rest n with
                    | none => none
                    | some content => some (n, content)
                | none => some (0, [])
              match lenAndContent with
              | none => none
              | some (clen, content) =>
                match decodeBody hd clen content with
                | none => none
                | some (ptext, fd) =>
                  some {
                    summary := reqstring
                    method := method
                    urlpath := urlpath
                    version := none
                    path := path
                    params := params
                    headers := hd
                    keep_alive := keepAlive
                    content_length := clen
                    content := content
                    plaintext_content := ptext
                    form_content := fd }

/-- Equality of the decoded parts of two requests: every field except
`summary` (the verbatim raw text kept for debugging and printing). -/
def decodedEq (a b : HTTPRequest) : Prop :=
  a.method = b.method ∧ a.urlpath = b.urlpath ∧ a.version = b.version ∧
    a.path = b.path ∧ a.params = b.params ∧ a.headers = b.headers ∧
    a.keep_alive = b.keep_alive ∧ a.content_length = b.content_length ∧
    a.content = b.content ∧ a.plaintext_content = b.plaintext_content ∧
    a.form_content = b.form_content

/-! ## Specification-side helpers for the query-string claim (C5)

These restate, in the claim's own words, what the final dictionary of
`parse_urlencoded_params` should contain per key. -/

/-- The decoded `(key, value)` of one `&`-separated piece, when it has
an `=`. -/
def partKV (part : Str) : Option (Str × Str) :=
  (splitFirst (S "=") part).map (fun p => (pyUnquoteCore true p.1, pyUnquoteCore true p.2))

/-- The decoded values of the pieces whose decoded key is `k ++ "[]"`,
in order of appearance. -/
def bracketVals (parts : List Str) (k : Str) : List Str :=
  parts.filterMap (fun part =>
    match partKV part with
    | some (key, val) => if key == k ++ S "[]" then some val else none
    | none => none)

/-- The decoded values of the pieces whose decoded key is `k` itself
(not `[]`-marked), in order of appearance. -/
def plainVals (parts : List Str) (k : Str) : List Str :=
  parts.filterMap (fun part =>
    match partKV part with
    | some (key, val) =>
      if !finishes (S "[]") key && key == k then some val else none
    | none => none)

/-- The list value already stored under `k`, if any (used to state how
`[]`-values accumulate onto an existing list). -/
def prevListOf (d : FDict) (k : Str) : List Str :=
  match fdLookup d k with
  | some (.vlist ws) => ws
  | _ => []

/-- No key occurs both with and without the `[]` marker. -/
def noMixB (parts : List Str) : Bool :=
  parts.all (fun p => parts.all (fun q =>
    match partKV p, partKV q with
    | some (kp, _), some (kq, _) => !(kp == kq ++ S "[]")
    | _, _ => true))

/-! ## Multipart encoder and well-formedness (for C3 and C7)

The repository has no multipart encoder; the spec's round-trip property
(§8) quantifies over well-formed multipart bodies, so a body generator
for the documented wire format (§4.4, §6: `--boundary` separators,
`--boundary--` terminator, a blank line between section headers and
data) is defined here, together with the character-level side
conditions that make a body well-formed. -/

/-- The `Content-Disposition` line of an encoded section. -/
def encDisposition (p : MultipartFormData) : Str :=
  S "Content-Disposition: form-data; name=\"" ++ p.fieldname ++
    S "\"; filename=\"" ++ p.filename ++ S "\""

/-- The `Content-Disposition` header value of an encoded section. -/
def dispVal (p : MultipartFormData) : Str :=
  S "form-data; name=\"" ++ p.fieldname ++ S "\"; filename=\"" ++ p.filename ++ S "\""

/-- The header dictionary of an encoded section, as
`parse_http_headers` returns it. -/
def hdDict (p : MultipartFormData) : Headers :=
  (S "Content-Disposition", dispVal p) ::
    (match p.mimetype with
      | some mt => [(S "Content-Type", mt)]
      | none => [])

/-- The header block of an encoded section. -/
def encHeaders (p : MultipartFormData) : Str :=
  encDisposition p ++
    (match p.mimetype with
      | some mt => S "\r\nContent-Type: " ++ mt
      | none => [])

/-- One encoded multipart section: boundary line, a
`Content-Disposition` with the field name and filename, an optional
`Content-Type`, a blank line, the data, and the trailing CRLF. -/
def encSection (sep : Str) (p : MultipartFormData) : Str :=
  sep ++ S "\r\n" ++ encHeaders p ++ S "\r\n\r\n" ++ p.data ++ S "\r\n"

/-- A whole multipart body for boundary `B`. -/
def encodeMultipart (B : Str) (ps : List MultipartFormData) : Str :=
  ((ps.map (encSection (S "--" ++ B))).flatten) ++ S "--" ++ B ++ S "--\r\n"

/-- The `Content-Type` request header carrying boundary `B`. -/
def multipartCType (B : Str) : Str := S "multipart/form-data; boundary=" ++ B

/-- A raw multipart section with a verbatim `Content-Disposition` value
`D` (used to exercise the malformed-disposition recovery path). -/
def rawSection (sep D data : Str) : Str :=
  sep ++ S "\r\n" ++ S "Content-Disposition: " ++ D ++ S "\r\n\r\n" ++ data ++ S "\r\n"

/-- Well-formedness of a boundary token: free of CR, LF and quotes, and
not ending in whitespace (so the header survives `strip()`). -/
def wfBoundary (B : Str) : Bool :=
  B.all (fun c => !(c == '\r' || c == '\n' || c == '"')) &&
    pyStrip (S "boundary=" ++ B) == S "boundary=" ++ B

/-- Well-formedness of one part against boundary `B`: names, filename
and media type free of the characters that would corrupt the framing,
the field name not ending in the `filename=` marker (which would let
the `find`-based disposition scan lock onto the wrong parameter), the
media type surviving `strip()`, and the data containing no premature
boundary separator. -/
def wfPart (B : Str) (p : MultipartFormData) : Bool :=
  let sep := S "--" ++ B
  p.fieldname.all (fun c => !(c == '"' || c == '\r' || c == '\n')) &&
  !finishes (S "filename=") p.fieldname &&
  p.filename.all (fun c => !(c == '"' || c == '\r' || c == '\n')) &&
  (match p.mimetype with
    | none => true
    | some mt => mt.all (fun c => !(c == '\r' || c == '\n')) && pyStrip mt == mt) &&
  !containsSub (S "\r\n" ++ sep) (p.data ++ (S "\r\n" ++ sep).dropLast)

/-- The dictionary key a part is stored under (`name` with a trailing
`[]` stripped). -/
def partKey (p : MultipartFormData) : Str :=
  if finishes (S "[]") p.fieldname then p.fieldname.take (p.fieldname.length - 2)
  else p.fieldname

/-- No two parts share a key with disagreeing `[]` marking (the mix
that would make `d[name].append` blow up). -/
def keyConsistent (ps : List MultipartFormData) : Bool :=
  ps.all (fun p => ps.all (fun q =>
    !(partKey p == partKey q) || (finishes (S "[]") p.fieldname == finishes (S "[]") q.fieldname)))

/-- Total shadow of `multipartStep`: the insertion it performs whenever
it does not raise. -/
def mpInsert (d : FDict) (p : MultipartFormData) : FDict :=
  if finishes (S "[]") p.fieldname then
    let k := p.fieldname.take (p.fieldname.length - 2)
    match fdLookup d k with
    | some (.vparts xs) => fdPut d k (.vparts (xs ++ [p]))
    | _ => fdPut d k (.vparts [p])
  else fdPut d p.fieldname (.vpart p)

/-- Folding a list of decoded parts into the dictionary. -/
def mpFold (d : FDict) (ps : List MultipartFormData) : FDict :=
  ps.foldl mpInsert d

/-- The parts stored in one dictionary entry. -/
def entryParts (e : Str × FVal) : List MultipartFormData :=
  match e.2 with
  | .vpart p => [p]
  | .vparts ps => ps
  | _ => []

/-- All parts stored in a decoded multipart dictionary, in dictionary
order ("the resulting parts" that get re-encoded). -/
def flattenD (d : FDict) : List MultipartFormData :=
  (d.map entryParts).flatten

/-- The pairwise no-mixing property, in propositional form. -/
def NoMix (parts : List Str) : Prop :=
  ∀ p ∈ parts, ∀ q ∈ parts, ∀ kp vp kq vq,
    partKV p = some (kp, vp) → partKV q = some (kq, vq) → kp ≠ kq ++ S "[]"

/-- Propositional form of `keyConsistent`. -/
def KeyCons (ps : List MultipartFormData) : Prop :=
  ∀ p ∈ ps, ∀ q ∈ ps, partKey p = partKey q →
    finishes (S "[]") p.fieldname = finishes (S "[]") q.fieldname

/-- Shape of one entry of a dictionary built by the multipart decoder:
a plain part is stored under its own (unmarked) field name; a `[]`
entry is a nonempty list of parts whose field names carry the marker. -/
def goodEntry : Str × FVal → Prop
  | (k, .vpart p) => p.fieldname = k ∧ finishes (S "[]") k = false
  | (k, .vparts xs) => xs ≠ [] ∧ ∀ x ∈ xs, x.fieldname = k ++ S "[]"
  | _ => False

/-- Structural invariant of decoded multipart dictionaries. -/
def GoodDict (d : FDict) : Prop :=
  (d.map Prod.fst).Nodup ∧ ∀ e ∈ d, goodEntry e

/-- The body after the leading separator, section by section. -/
def encTail (sep : Str) : List MultipartFormData → Str
  | [] => S "--\r\n"
  | p :: ps => S "\r\n" ++ encHeaders p ++ S "\r\n\r\n" ++ p.data ++ S "\r\n" ++
      sep ++ encTail sep ps

/-- Compatibility of an accumulated dictionary with the parts still to
be decoded: a pending `[]` part must not collide with a non-list entry
(such a collision is the `AttributeError` of `d[name].append` in
`http_helpers.py` line 211). -/
def Compat (d : FDict) (ps : List MultipartFormData) : Prop :=
  ∀ p ∈ ps, finishes (S "[]") p.fieldname = true →
    fdLookup d (partKey p) = none ∨ ∃ xs, fdLookup d (partKey p) = some (.vparts xs)

/-! # Toolkit lemmas about the string primitives -/

theorem begins_iff {p s : Str} : begins p s = true ↔ ∃ t, s = p ++ t := by
  induction p generalizing s with
  | nil => simp [begins]
  | cons a p ih =>
    cases s with
    | nil => simp [begins]
    | cons c cs =>
      simp only [begins, Bool.and_eq_true, beq_iff_eq, List.cons_append]
      constructor
      · rintro ⟨rfl, h⟩
        obtain ⟨t, rfl⟩ := ih.mp h
        exact ⟨t, rfl⟩
      · rintro ⟨t, ht⟩
        injection ht with h1 h2
        exact ⟨h1.symm, ih.mpr ⟨t, h2⟩⟩

theorem begins_append (p t : Str) : begins p (p ++ t) = true :=
  begins_iff.mpr ⟨t, rfl⟩

theorem begins_length {p s : Str} (h : begins p s = true) : p.length ≤ s.length := by
  obtain ⟨t, rfl⟩ := begins_iff.mp h
  simp

theorem begins_take {p s : Str} (h : begins p s = true) : s.take p.length = p := by
  obtain ⟨t, rfl⟩ := begins_iff.mp h
  exact List.take_left p t

theorem begins_of_take {p s : Str} (_hlen : p.length ≤ s.length)
    (h : s.take p.length = p) : begins p s = true := by
  refine begins_iff.mpr ⟨s.drop p.length, ?_⟩
  conv_lhs => rw [← List.take_append_drop p.length s]
  rw [h]

theorem begins_cancel (x a b : Str) : begins (x ++ a) (x ++ b) = begins a b := by
  induction x with
  | nil => rfl
  | cons c x ih => simp [begins, ih]

theorem splitFirst_sound {pat s a b : Str} (h : splitFirst pat s = some (a, b)) :
    s = a ++ pat ++ b := by
  induction s generalizing a b with
  | nil =>
    by_cases hp : pat.isEmpty
    · simp only [splitFirst, hp, if_true, Option.some.injEq, Prod.mk.injEq] at h
      obtain ⟨rfl, rfl⟩ := h
      simp_all [List.isEmpty_iff]
    · simp [splitFirst, hp] at h
  | cons c cs ih =>
    by_cases hb : begins pat (c :: cs) = true
    · simp only [splitFirst, hb, if_true, Option.some.injEq, Prod.mk.injEq] at h
      obtain ⟨rfl, rfl⟩ := h
      obtain ⟨t, ht⟩ := begins_iff.mp hb
      conv_lhs => rw [ht]
      rw [ht, List.nil_append, List.drop_left]
    · rw [splitFirst, if_neg (by simp [hb])] at h
      cases hx : splitFirst pat cs with
      | none => rw [hx] at h; exact absurd h (by simp)
      | some x =>
        obtain ⟨a2, b2⟩ := x
        rw [hx] at h
        simp only [Option.some.injEq, Prod.mk.injEq] at h
        obtain ⟨rfl, rfl⟩ := h
        have := ih hx
        simp [this]

theorem splitFirst_length {pat s a b : Str} (h : splitFirst pat s = some (a, b)) :
    a.length + pat.length + b.length = s.length := by
  have := splitFirst_sound h
  subst this
  simp [Nat.add_assoc]

theorem splitFirst_pos {pat s : Str} (h : begins pat s = true) :
    splitFirst pat s = some ([], s.drop pat.length) := by
  cases s with
  | nil =>
    cases pat with
    | nil => simp [splitFirst]
    | cons a q => simp [begins] at h
  | cons c cs => simp [splitFirst, h]

theorem splitFirst_cons_neg {pat : Str} {c : Char} {cs : Str}
    (h : begins pat (c :: cs) = false) :
    splitFirst pat (c :: cs) = (splitFirst pat cs).map (fun x => (c :: x.1, x.2)) := by
  rw [splitFirst, if_neg (by simp [h])]
  cases splitFirst pat cs with
  | none => rfl
  | some x => cases x; rfl

theorem containsSub_of_begins {pat s : Str} (h : begins pat s = true) :
    containsSub pat s = true := by
  simp [containsSub, splitFirst_pos h]

theorem containsSub_cons {pat : Str} (c : Char) {s : Str} (h : containsSub pat s = true) :
    containsSub pat (c :: s) = true := by
  by_cases hb : begins pat (c :: s) = true
  · simp [containsSub, splitFirst_pos hb]
  · rw [containsSub, splitFirst_cons_neg (by simpa using hb)]
    simpa [containsSub] using h

theorem splitFirst_append_left {p0 : Char} {pr : Str} (L t : Str)
    (h : ∀ c ∈ L, c ≠ p0) :
    splitFirst (p0 :: pr) (L ++ t) =
      (splitFirst (p0 :: pr) t).map (fun x => (L ++ x.1, x.2)) := by
  induction L with
  | nil =>
    simp only [List.nil_append]
    cases hx : splitFirst (p0 :: pr) t with
    | none => rfl
    | some x => cases x; rfl
  | cons c L ih =>
    have hc : c ≠ p0 := h c (by simp)
    have hb : begins (p0 :: pr) (c :: (L ++ t)) = false := by
      simp only [begins, Bool.and_eq_false_iff]
      exact Or.inl (by simpa [beq_eq_false_iff_ne] using fun hcc => hc hcc.symm)
    rw [List.cons_append, splitFirst_cons_neg hb, ih (fun c2 hc2 => h c2 (by simp [hc2]))]
    cases splitFirst (p0 :: pr) t with
    | none => rfl
    | some x => cases x; rfl

theorem splitFirst_exact {pat : Str} (a b : Str) (hpat : pat ≠ [])
    (h : containsSub pat (a ++ pat.dropLast) = false) :
    splitFirst pat (a ++ pat ++ b) = some (a, b) := by
  induction a with
  | nil =>
    simp only [List.nil_append]
    rw [splitFirst_pos (begins_append pat b), List.drop_left]
  | cons c a ih =>
    have hb : begins pat (c :: a ++ pat ++ b) = false := by
      by_contra hbt
      have hbt : begins pat (c :: a ++ pat ++ b) = true := by
        revert hbt; cases begins pat (c :: a ++ pat ++ b) <;> simp
      have hpatsplit : pat.dropLast ++ [pat.getLast hpat] = pat :=
        List.dropLast_append_getLast hpat
      have hre : c :: a ++ pat ++ b =
          (c :: a ++ pat.dropLast) ++ (pat.getLast hpat :: b) := by
        conv_lhs => rw [← hpatsplit]
        simp
      have hlen : pat.length ≤ (c :: a ++ pat.dropLast).length := by
        have h1 : pat.dropLast.length = pat.length - 1 := List.length_dropLast pat
        have h2 : 1 ≤ pat.length := by
          cases pat with
          | nil => exact absurd rfl hpat
          | cons x xs => simp
        simp only [List.length_append, List.length_cons, h1]
        omega
      have htake : (c :: a ++ pat.dropLast).take pat.length = pat := by
        have := begins_take hbt
        rw [hre, List.take_append_of_le_length hlen] at this
        exact this
      have : begins pat (c :: a ++ pat.dropLast) = true := begins_of_take hlen htake
      have : containsSub pat (c :: a ++ pat.dropLast) = true := containsSub_of_begins this
      rw [List.cons_append] at this
      rw [List.cons_append, this] at h
      exact absurd h (by simp)
    have h2 : containsSub pat (a ++ pat.dropLast) = false := by
      by_contra hc2
      have hc2 : containsSub pat (a ++ pat.dropLast) = true := by
        revert hc2; cases containsSub pat (a ++ pat.dropLast) <;> simp
      have := containsSub_cons c hc2
      rw [← List.cons_append] at this
      rw [this] at h
      exact absurd h (by simp)
    have hb2 : begins pat (c :: (a ++ pat ++ b)) = false := hb
    calc splitFirst pat (c :: a ++ pat ++ b)
        = (splitFirst pat (a ++ pat ++ b)).map (fun x => (c :: x.1, x.2)) :=
          splitFirst_cons_neg hb2
      _ = some (c :: a, b) := by rw [ih h2]; rfl

/-! # Claim C1 -/

/-- C1: the claim says a `GET /view/<name>` or `GET /download/<name>`
for an unregistered `<name>` yields a well-formed 404 response over the
same connection.  The code routes such requests to `send_share_file`,
but there the local variable `filedata` is only assigned inside
`if is_shared_file_stored_locally(filename):`, so for an unregistered
name the following `if filedata is None` raises `UnboundLocalError`
(modelled `.nameError`): no response is written and
`handle_http_connection` drops the connection.  This theorem evaluates
the code at the failing input. -/
theorem claim_C1 :
    route [] (S "GET") (S "/view/missing.txt") = .shareFile (S "missing.txt") false ∧
    route [] (S "GET") (S "/download/missing.txt") = .shareFile (S "missing.txt") true ∧
    (send_share_file ⟨[], [], [], 0, 0, 0⟩ (S "missing.txt") false true []).2 =
      .error .nameError ∧
    (send_share_file ⟨[], [], [], 0, 0, 0⟩ (S "missing.txt") true true []).2 =
      .error .nameError := by decide

/-! # Claim C2 -/

/-- C2: the claim says `remove_file` on an absent filename returns the
fixed "No such file" status, leaves the registry unchanged, and leaves
every statistics counter (including `num_local_files`) unchanged.  The
first two parts hold, but the `with stats_updates` block sits after the
`if`/`else` and decrements `num_local_files` unconditionally: on a
state with one registered file, removing an absent name drops the
counter from 1 to 0 while the registry still holds one file.  This
theorem evaluates the code at the failing input. -/
theorem claim_C2 :
    remove_file ⟨[S "a.txt"], [3], [(S "a.txt", S "abc")], 1, 5, 7⟩ (S "ghost.txt") true =
      (⟨[S "a.txt"], [3], [(S "a.txt", S "abc")], 0, 5, 7⟩,
        S "No such file " ++ [qc] ++ S "ghost.txt" ++ [qc, '.']) := by decide

/-! # Claim C9 -/

/-- C9: for every GET request whose decoded path is `/` or
`/index.html`, the dispatch chain selects the redirect-to-main-page
response, and that response is a 302 whose `Location` header is
`/shared-files.html` (shown by spelling out the exact bytes written,
for any keep-alive flag and `Date` value). -/
theorem claim_C9 (ka : Bool) (date : Str) (sf : List Str) (method path : Str)
    (hm : method = S "GET") (hp : path = S "/" ∨ path = S "/index.html") :
    route sf method path = .redirectMain none ∧
    send_redirect_to_main_page ka date none =
      S "HTTP/1.1 302 TEMPORARY REDIRECT\r\n" ++ S "Date: " ++ date ++ S "\r\n" ++
        connectionHeader ka ++
        S "Content-Length: " ++ natToStr 38 ++ S "\r\n" ++
        S "Content-Type: text/plain\r\n" ++
        S "Location: " ++ S "/shared-files.html" ++ S "\r\n" ++ S "\r\n" ++
        S "You should go to the main page please!" := by
  subst hm
  rcases hp with rfl | rfl <;> exact ⟨rfl, rfl⟩

/-- Witness for C9 at a concrete request. -/
theorem claim_C9_witness :
    route [S "fileshare.css"] (S "GET") (S "/") = .redirectMain none ∧
    send_redirect_to_main_page true (S "Sat, 15 Oct 2022 12:00:00 UTC") none =
      S "HTTP/1.1 302 TEMPORARY REDIRECT\r\n" ++ S "Date: " ++
        S "Sat, 15 Oct 2022 12:00:00 UTC" ++ S "\r\n" ++
        connectionHeader true ++
        S "Content-Length: " ++ natToStr 38 ++ S "\r\n" ++
        S "Content-Type: text/plain\r\n" ++
        S "Location: " ++ S "/shared-files.html" ++ S "\r\n" ++ S "\r\n" ++
        S "You should go to the main page please!" :=
  claim_C9 true (S "Sat, 15 Oct 2022 12:00:00 UTC") [S "fileshare.css"]
    (S "GET") (S "/") rfl (Or.inl rfl)

/-! # Claim C10 -/

/-- C10: calling `add_file` with a filename already present leaves the
registry lists and the stored file data unchanged and returns the
"already exists" status, yet still increments `num_local_files` and
`num_uploads` by one each (the statistics block runs after the
`if`/`else`, unconditionally). -/
theorem claim_C10 (st : ServerState) (f data : Str) (ok : Bool)
    (h : f ∈ st.local_file_names) :
    add_file st f data ok =
      ({ st with num_local_files := st.num_local_files + 1,
                 num_uploads := st.num_uploads + 1 },
        S "You have a file named " ++ [qc] ++ f ++ [qc] ++ S " already.") := by
  simp [add_file, h]

/-- Witness for C10 at a concrete state. -/
theorem claim_C10_witness :
    S "a.txt" ∈ [S "a.txt"] ∧
    add_file ⟨[S "a.txt"], [3], [(S "a.txt", S "abc")], 1, 5, 7⟩ (S "a.txt") (S "zz") true =
      (⟨[S "a.txt"], [3], [(S "a.txt", S "abc")], 2, 6, 7⟩,
        S "You have a file named " ++ [qc] ++ S "a.txt" ++ [qc] ++ S " already.") :=
  ⟨by decide,
    claim_C10 ⟨[S "a.txt"], [3], [(S "a.txt", S "abc")], 1, 5, 7⟩
      (S "a.txt") (S "zz") true (by decide)⟩

/-! # Claim C8 -/

/-- C8: starting from a registry with no duplicate filenames, every
sequence of `add_file`/`remove_file` operations (with any pattern of
filesystem successes and failures) keeps `local_file_names` free of
duplicates: `add_file` refuses an already-present filename, and
`remove_file` only deletes. -/
theorem claim_C8 (st : ServerState) (ops : List FileOp)
    (h : st.local_file_names.Nodup) :
    (applyOps st ops).local_file_names.Nodup := by
  induction ops generalizing st with
  | nil => exact h
  | cons op ops ih =>
    refine ih _ ?_
    cases op with
    | add f data ok =>
      by_cases hf : f ∈ st.local_file_names
      · simpa [applyOp, add_file, hf] using h
      · cases ok with
        | true =>
          simp only [applyOp, add_file, hf, if_false, if_true]
          simpa [List.nodup_append] using ⟨h, hf⟩
        | false => simpa [applyOp, add_file, hf] using h
    | remove f ok =>
      by_cases hf : f ∈ st.local_file_names
      · simp only [applyOp, remove_file, hf, if_true]
        exact (List.eraseIdx_sublist _ _).nodup h
      · simpa [applyOp, remove_file, hf] using h

/-- Witness for C8 at a concrete state and operation sequence. -/
theorem claim_C8_witness :
    ([S "a"].Nodup : Prop) ∧
    (applyOps ⟨[S "a"], [1], [(S "a", S "x")], 1, 0, 0⟩
      [.add (S "a") (S "y") true, .add (S "b") (S "z") true,
        .remove (S "a") true, .add (S "c") (S "w") false]).local_file_names.Nodup :=
  ⟨by decide,
    claim_C8 ⟨[S "a"], [1], [(S "a", S "x")], 1, 0, 0⟩
      [.add (S "a") (S "y") true, .add (S "b") (S "z") true,
        .remove (S "a") true, .add (S "c") (S "w") false] (by decide)⟩

/-! # Claim C4 -/

theorem ciLookup_ciPut_self (d : Headers) (k v : Str) :
    ciLookup (ciPut d k v) k = some v := by
  induction d with
  | nil => simp [ciPut, ciLookup, List.find?]
  | cons p rest ih =>
    by_cases hp : (pyLower p.1 == pyLower k) = true
    · simp [ciPut, hp, ciLookup, List.find?]
    · simp only [ciPut, hp, Bool.false_eq_true, if_false]
      simpa [ciLookup, List.find?, hp] using ih

theorem ciLookup_ciPut_other (d : Headers) (k k2 v : Str)
    (h : pyLower k2 ≠ pyLower k) :
    ciLookup (ciPut d k v) k2 = ciLookup d k2 := by
  have hkk : (pyLower k == pyLower k2) = false := by
    simpa [beq_eq_false_iff_ne] using fun he => h he.symm
  induction d with
  | nil => simp [ciPut, ciLookup, List.find?, hkk]
  | cons p rest ih =>
    by_cases hp : (pyLower p.1 == pyLower k) = true
    · have hp2 : (pyLower p.1 == pyLower k2) = false := by
        have : pyLower p.1 = pyLower k := by simpa using hp
        simpa [this] using hkk
      simp [ciPut, hp, ciLookup, List.find?, hkk, hp2]
    · simp only [ciPut, hp, Bool.false_eq_true, if_false]
      by_cases hp2 : (pyLower p.1 == pyLower k2) = true
      · simp [ciLookup, List.find?, hp2]
      · simpa [ciLookup, List.find?, hp2] using ih

/-- C4: inside a header block, every run of lines beginning with a
space or tab is folded into the value of the header last parsed
(`key`), each continuation line contributing exactly one `", "` plus
its stripped text, for any number of continuation lines; all other
header entries are untouched, and parsing then continues with the
remaining lines. -/
theorem claim_C4 (d : Headers) (key v : Str) (cs rest : List Str)
    (hv : ciLookup d key = some v)
    (hcs : ∀ c ∈ cs, isContLine c = true) :
    ∃ d2, headerLines (cs ++ rest) d key = headerLines rest d2 key ∧
      ciLookup d2 key = some (v ++ (cs.map (fun c => S ", " ++ pyStrip c)).flatten) ∧
      ∀ k2, pyLower k2 ≠ pyLower key → ciLookup d2 k2 = ciLookup d k2 := by
  induction cs generalizing d v with
  | nil => exact ⟨d, rfl, by simpa using hv, fun _ _ => rfl⟩
  | cons c cs ih =>
    obtain ⟨c0, t, rfl, hc0⟩ : ∃ c0 t, c = c0 :: t ∧ (c0 == ' ' || c0 == '\t') = true := by
      have hc := hcs c (by simp)
      cases c with
      | nil => simp [isContLine] at hc
      | cons c0 t => exact ⟨c0, t, rfl, by simpa [isContLine] using hc⟩
    have hstep : headerLines ((c0 :: t) :: (cs ++ rest)) d key =
        headerLines (cs ++ rest) (ciPut d key (v ++ S ", " ++ pyStrip (c0 :: t))) key := by
      simp [headerLines, hc0, hv]
    obtain ⟨d2, h1, h2, h3⟩ :=
      ih (ciPut d key (v ++ S ", " ++ pyStrip (c0 :: t)))
        (v ++ S ", " ++ pyStrip (c0 :: t))
        (ciLookup_ciPut_self d key _)
        (fun c hc => hcs c (by simp [hc]))
    refine ⟨d2, ?_, ?_, ?_⟩
    · rw [List.cons_append, hstep, h1]
    · rw [h2]
      congr 1
      simp [List.append_assoc]
    · intro k2 hk2
      rw [h3 k2 hk2, ciLookup_ciPut_other d key k2 _ hk2]

/-- Witness for C4 at a concrete header block. -/
theorem claim_C4_witness :
    ciLookup [(S "Host", S "x")] (S "Host") = some (S "x") ∧
    (∀ c ∈ [S " a", S "\t b"], isContLine c = true) ∧
    ∃ d2, headerLines ([S " a", S "\t b"] ++ [S "K: 1"]) [(S "Host", S "x")] (S "Host") =
        headerLines [S "K: 1"] d2 (S "Host") ∧
      ciLookup d2 (S "Host") =
        some (S "x" ++ ([S " a", S "\t b"].map (fun c => S ", " ++ pyStrip c)).flatten) ∧
      ∀ k2, pyLower k2 ≠ pyLower (S "Host") →
        ciLookup d2 k2 = ciLookup [(S "Host", S "x")] k2 :=
  ⟨by decide, by decide,
    claim_C4 [(S "Host", S "x")] (S "Host") (S "x") [S " a", S "\t b"] [S "K: 1"]
      (by decide) (by decide)⟩

/-! # Claim C5 -/

theorem fdLookup_fdPut_self (d : FDict) (k : Str) (v : FVal) :
    fdLookup (fdPut d k v) k = some v := by
  induction d with
  | nil => simp [fdPut, fdLookup, List.find?]
  | cons p rest ih =>
    by_cases hp : (p.1 == k) = true
    · simp [fdPut, hp, fdLookup, List.find?]
    · simp only [fdPut, hp, Bool.false_eq_true, if_false]
      simpa [fdLookup, List.find?, hp] using ih

theorem fdLookup_fdPut_other (d : FDict) (k k2 : Str) (v : FVal) (h : k2 ≠ k) :
    fdLookup (fdPut d k v) k2 = fdLookup d k2 := by
  have hkk : (k == k2) = false := by
    simpa [beq_eq_false_iff_ne] using fun he => h he.symm
  induction d with
  | nil => simp [fdPut, fdLookup, List.find?, hkk]
  | cons p rest ih =>
    by_cases hp : (p.1 == k) = true
    · have hp2 : (p.1 == k2) = false := by
        have : p.1 = k := by simpa using hp
        simpa [this] using hkk
      simp [fdPut, hp, fdLookup, List.find?, hkk, hp2]
    · simp only [fdPut, hp, Bool.false_eq_true, if_false]
      by_cases hp2 : (p.1 == k2) = true
      · simp [fdLookup, List.find?, hp2]
      · simpa [fdLookup, List.find?, hp2] using ih

theorem finishes_iff {p s : Str} : finishes p s = true ↔ ∃ t, s = t ++ p := by
  unfold finishes
  rw [begins_iff]
  constructor
  · rintro ⟨t, ht⟩
    refine ⟨t.reverse, ?_⟩
    have := congrArg List.reverse ht
    simpa using this
  · rintro ⟨t, rfl⟩
    exact ⟨t.reverse, by simp⟩

theorem finishes_marker (k : Str) : finishes (S "[]") (k ++ S "[]") = true :=
  finishes_iff.mpr ⟨k, rfl⟩

theorem finishes_decomp {k : Str} (h : finishes (S "[]") k = true) :
    k.take (k.length - 2) ++ S "[]" = k := by
  obtain ⟨t, rfl⟩ := finishes_iff.mp h
  have hlen : (t ++ S "[]").length - 2 = t.length := by simp [S]
  rw [hlen, List.take_left]

theorem getLast?_cons_ne {α : Type} {l : List α} (c : α) (h : l ≠ []) :
    (c :: l).getLast? = l.getLast? := by
  cases l with
  | nil => exact absurd rfl h
  | cons x xs => exact List.getLast?_cons_cons

theorem bracketVals_cons (part : Str) (ps : List Str) (k : Str) :
    bracketVals (part :: ps) k =
      (match partKV part with
        | some kv => if kv.1 == k ++ S "[]" then kv.2 :: bracketVals ps k else bracketVals ps k
        | none => bracketVals ps k) := by
  cases hp : partKV part with
  | none => simp [bracketVals, List.filterMap_cons, hp]
  | some kv =>
    by_cases hk : (kv.1 == k ++ S "[]") = true
    · have h1 : kv.1 = k ++ S "[]" := by simpa using hk
      simp [bracketVals, List.filterMap_cons, hp, h1]
    · have h1 : kv.1 ≠ k ++ S "[]" := by simpa using hk
      simp [bracketVals, List.filterMap_cons, hp, h1]

theorem plainVals_cons (part : Str) (ps : List Str) (k : Str) :
    plainVals (part :: ps) k =
      (match partKV part with
        | some kv =>
          if !finishes (S "[]") kv.1 && kv.1 == k then kv.2 :: plainVals ps k
          else plainVals ps k
        | none => plainVals ps k) := by
  cases hp : partKV part with
  | none => simp [plainVals, List.filterMap_cons, hp]
  | some kv =>
    by_cases hf : finishes (S "[]") kv.1 = true
    · simp [plainVals, List.filterMap_cons, hp, hf]
    · have hf2 : finishes (S "[]") kv.1 = false := by
        revert hf; cases finishes (S "[]") kv.1 <;> simp
      by_cases hk : kv.1 = k
      · have hf3 : finishes (S "[]") k = false := hk ▸ hf2
        simp [plainVals, List.filterMap_cons, hp, hf2, hf3, hk]
      · simp [plainVals, List.filterMap_cons, hp, hf2, hk]

theorem bracketVals_mem {ps : List Str} {k : Str} (h : bracketVals ps k ≠ []) :
    ∃ q ∈ ps, partKV q = some (k ++ S "[]", (bracketVals ps k).headI) := by
  cases hb : bracketVals ps k with
  | nil => exact absurd hb h
  | cons v vs =>
    have hv : v ∈ bracketVals ps k := by rw [hb]; simp
    obtain ⟨q, hq, hq2⟩ := List.mem_filterMap.mp hv
    refine ⟨q, hq, ?_⟩
    cases hkv : partKV q with
    | none => rw [hkv] at hq2; simp at hq2
    | some kv =>
      rw [hkv] at hq2
      by_cases hk : (kv.1 == k ++ S "[]") = true
      · have h1 : kv.1 = k ++ S "[]" := by simpa using hk
        have h2 : kv.2 = v := by simpa [hk] using hq2
        simp only [List.headI]
        rw [← h1, ← h2]
      · simp [hk] at hq2

theorem plainVals_mem {ps : List Str} {k : Str} (h : plainVals ps k ≠ []) :
    ∃ q ∈ ps, partKV q = some (k, (plainVals ps k).headI) ∧
      finishes (S "[]") k = false := by
  cases hb : plainVals ps k with
  | nil => exact absurd hb h
  | cons v vs =>
    have hv : v ∈ plainVals ps k := by rw [hb]; simp
    obtain ⟨q, hq, hq2⟩ := List.mem_filterMap.mp hv
    cases hkv : partKV q with
    | none => rw [hkv] at hq2; simp at hq2
    | some kv =>
      rw [hkv] at hq2
      by_cases hk : (!finishes (S "[]") kv.1 && kv.1 == k) = true
      · have h1 : kv.1 = k := by
          have := (Bool.and_eq_true _ _).mp hk
          simpa using this.2
        have h3 : finishes (S "[]") k = false := by
          have := (Bool.and_eq_true _ _).mp hk
          rw [← h1]
          simpa using this.1
        have h2 : kv.2 = v := by simpa [hk] using hq2
        refine ⟨q, hq, ?_, h3⟩
        simp only [List.headI]
        rw [← h1, ← h2]
        exact hkv
      · simp [hk] at hq2

theorem noMixB_spec {parts : List Str} (h : noMixB parts = true) : NoMix parts := by
  intro p hp q hq kp vp kq vq hkp hkq
  have h1 := (List.all_eq_true.mp h) p hp
  have h2 := (List.all_eq_true.mp h1) q hq
  rw [hkp, hkq] at h2
  simpa [beq_eq_false_iff_ne] using h2

theorem noMix_tail {part : Str} {ps : List Str} (h : NoMix (part :: ps)) : NoMix ps :=
  fun p hp q hq kp vp kq vq hkp hkq =>
    h p (by simp [hp]) q (by simp [hq]) kp vp kq vq hkp hkq

theorem bracketVals_cons_ne {part : Str} {ps : List Str} {k : Str}
    (h : bracketVals ps k ≠ []) : bracketVals (part :: ps) k ≠ [] := by
  rw [bracketVals_cons]
  cases partKV part with
  | none => exact h
  | some kv =>
    simp only
    split
    · simp
    · exact h

/-- Full characterisation of the `parse_urlencoded_params` loop under
the no-mixing hypothesis, with a general accumulator. -/
theorem urlParamsGo_spec (parts : List Str) (d : FDict)
    (hmix : NoMix parts)
    (hinv : ∀ k, bracketVals parts k ≠ [] →
      fdLookup d k = none ∨ ∃ ws, fdLookup d k = some (.vlist ws)) :
    ∃ d2, urlParamsGo parts d = .ok d2 ∧
      ∀ k, fdLookup d2 k =
        (match bracketVals parts k, (plainVals parts k).getLast? with
         | [], none => fdLookup d k
         | [], some v => some (.vstr v)
         | _ :: _, _ => some (.vlist (prevListOf d k ++ bracketVals parts k))) := by
  induction parts generalizing d with
  | nil =>
    refine ⟨d, rfl, fun k => ?_⟩
    simp [bracketVals, plainVals]
  | cons part ps ih =>
    cases hsplit : splitFirst (S "=") part with
    | none =>
      have hpart : partKV part = none := by simp [partKV, hsplit]
      have hstep : urlParamsGo (part :: ps) d = urlParamsGo ps d := by
        simp only [urlParamsGo, hsplit]
      have hB : ∀ k, bracketVals (part :: ps) k = bracketVals ps k := by
        intro k; rw [bracketVals_cons, hpart]
      have hP : ∀ k, plainVals (part :: ps) k = plainVals ps k := by
        intro k; rw [plainVals_cons, hpart]
      obtain ⟨d2, h1, h2⟩ := ih d (noMix_tail hmix)
        (fun k hk => hinv k (by rw [hB k]; exact hk))
      refine ⟨d2, by rw [hstep, h1], fun k => ?_⟩
      rw [hB, hP]
      exact h2 k
    | some kv =>
      obtain ⟨k0, v0⟩ := kv
      set K := pyUnquoteCore true k0 with hK
      set V := pyUnquoteCore true v0 with hV
      have hpart : partKV part = some (K, V) := by simp [partKV, hsplit]
      by_cases hfin : finishes (S "[]") K = true
      · -- a `[]`-marked piece
        set K2 := K.take (K.length - 2) with hK2
        have hdec : K2 ++ S "[]" = K := finishes_decomp hfin
        have hBhead : bracketVals (part :: ps) K2 = V :: bracketVals ps K2 := by
          rw [bracketVals_cons, hpart]
          simp [hdec]
        have hBne : bracketVals (part :: ps) K2 ≠ [] := by rw [hBhead]; simp
        have hPlps : plainVals ps K2 = [] := by
          by_contra hpl
          obtain ⟨qq, hq, hq2, _⟩ := plainVals_mem hpl
          exact hmix part (by simp) qq (by simp [hq]) K V K2 _ hpart hq2 hdec.symm
        have hPlhead : ∀ k, plainVals (part :: ps) k = plainVals ps k := by
          intro k
          rw [plainVals_cons, hpart]
          simp [hfin]
        have hstep : urlParamsGo (part :: ps) d =
            urlParamsGo ps (fdPut d K2 (.vlist (prevListOf d K2 ++ [V]))) := by
          rcases hinv K2 hBne with hnone | ⟨ws, hws⟩
          · have hprev0 : prevListOf d K2 = [] := by simp [prevListOf, hnone]
            simp only [urlParamsGo, hsplit, ← hK, ← hV, hfin, if_true, ← hK2, hnone,
              hprev0, List.nil_append]
          · have hprev0 : prevListOf d K2 = ws := by simp [prevListOf, hws]
            simp only [urlParamsGo, hsplit, ← hK, ← hV, hfin, if_true, ← hK2, hws,
              hprev0]
        set dmid := fdPut d K2 (.vlist (prevListOf d K2 ++ [V])) with hdmid
        have hmidself : fdLookup dmid K2 = some (.vlist (prevListOf d K2 ++ [V])) :=
          fdLookup_fdPut_self d K2 _
        have hmidother : ∀ k, k ≠ K2 → fdLookup dmid k = fdLookup d k :=
          fun k hk => fdLookup_fdPut_other d K2 k _ hk
        have hinvmid : ∀ k, bracketVals ps k ≠ [] →
            fdLookup dmid k = none ∨ ∃ ws, fdLookup dmid k = some (.vlist ws) := by
          intro k hk
          by_cases hkk : k = K2
          · subst hkk
            exact Or.inr ⟨_, hmidself⟩
          · rw [hmidother k hkk]
            exact hinv k (bracketVals_cons_ne hk)
        obtain ⟨d2, h1, h2⟩ := ih dmid (noMix_tail hmix) hinvmid
        refine ⟨d2, by rw [hstep, h1], fun k => ?_⟩
        by_cases hkk : k = K2
        · subst hkk
          rw [hBhead, hPlhead, hPlps]
          have h2k := h2 K2
          rw [hPlps] at h2k
          cases hB : bracketVals ps K2 with
          | nil =>
            rw [hB] at h2k
            simp only [List.getLast?] at h2k ⊢
            rw [h2k, hmidself]
          | cons b bs =>
            rw [hB] at h2k
            simp only [List.getLast?] at h2k ⊢
            rw [h2k]
            have hpm : prevListOf dmid K2 = prevListOf d K2 ++ [V] := by
              simp [prevListOf, hmidself]
            rw [hpm]
            simp
        · have hBk : bracketVals (part :: ps) k = bracketVals ps k := by
            rw [bracketVals_cons, hpart]
            simp only
            have hne : (K == k ++ S "[]") = false := by
              refine beq_eq_false_iff_ne.mpr ?_
              intro hcontra
              exact hkk (List.append_cancel_right (hdec.trans hcontra)).symm
            rw [hne]
            simp
          have hprev : prevListOf dmid k = prevListOf d k := by
            simp [prevListOf, hmidother k hkk]
          have h2k := h2 k
          rw [hBk, hPlhead]
          rw [hmidother k hkk, hprev] at h2k
          exact h2k
      · -- a plain piece
        have hfin2 : finishes (S "[]") K = false := by
          revert hfin; cases finishes (S "[]") K <;> simp
        have hBhead : ∀ k, bracketVals (part :: ps) k = bracketVals ps k := by
          intro k
          rw [bracketVals_cons, hpart]
          simp only
          have hne : (K == k ++ S "[]") = false := by
            refine beq_eq_false_iff_ne.mpr ?_
            intro hcontra
            rw [hcontra, finishes_marker] at hfin2
            exact absurd hfin2 (by simp)
          rw [hne]
          simp
        have hBKps : bracketVals ps K = [] := by
          by_contra hb
          obtain ⟨qq, hq, hq2⟩ := bracketVals_mem hb
          exact hmix qq (by simp [hq]) part (by simp) (K ++ S "[]") _ K V hq2 hpart rfl
        have hstep : urlParamsGo (part :: ps) d =
            urlParamsGo ps (fdPut d K (.vstr V)) := by
          simp only [urlParamsGo, hsplit, ← hK, ← hV, hfin2, Bool.false_eq_true,
            if_false]
        set dmid := fdPut d K (.vstr V) with hdmid
        have hmidself : fdLookup dmid K = some (.vstr V) := fdLookup_fdPut_self d K _
        have hmidother : ∀ k, k ≠ K → fdLookup dmid k = fdLookup d k :=
          fun k hk => fdLookup_fdPut_other d K k _ hk
        have hinvmid : ∀ k, bracketVals ps k ≠ [] →
            fdLookup dmid k = none ∨ ∃ ws, fdLookup dmid k = some (.vlist ws) := by
          intro k hk
          by_cases hkk : k = K
          · subst hkk
            exact absurd hBKps hk
          · rw [hmidother k hkk]
            exact hinv k (by rw [hBhead k]; exact hk)
        obtain ⟨d2, h1, h2⟩ := ih dmid (noMix_tail hmix) hinvmid
        refine ⟨d2, by rw [hstep, h1], fun k => ?_⟩
        by_cases hkk : k = K
        · subst hkk
          have hPlhead : plainVals (part :: ps) K = V :: plainVals ps K := by
            rw [plainVals_cons, hpart]
            simp [hfin2]
          rw [hBhead, hBKps, hPlhead]
          have h2k := h2 K
          rw [hBKps] at h2k
          cases hP : plainVals ps K with
          | nil =>
            rw [hP] at h2k
            simp only [List.getLast?] at h2k ⊢
            rw [h2k, hmidself]
            simp
          | cons w ws =>
            rw [hP] at h2k
            rw [getLast?_cons_ne V (by simp)]
            cases hgl : (w :: ws).getLast? with
            | none => simp [List.getLast?_eq_none_iff] at hgl
            | some g =>
              rw [hgl] at h2k
              simp only [List.getLast?] at h2k ⊢
              rw [h2k]
        · have hPlk : plainVals (part :: ps) k = plainVals ps k := by
            rw [plainVals_cons, hpart]
            simp only
            have hne : (K == k) = false := by
              refine beq_eq_false_iff_ne.mpr ?_
              exact fun hcontra => hkk hcontra.symm
            rw [hne]
            simp
          have hprev : prevListOf dmid k = prevListOf d k := by
            simp [prevListOf, hmidother k hkk]
          have h2k := h2 k
          rw [hBhead, hPlk]
          rw [hmidother k hkk, hprev] at h2k
          exact h2k

/-- C5 counterexample: the claim quantifies over every query string,
but on `k=1&k[]=2` the parser crashes — after `d["k"] = "1"`, the
`[]`-piece runs `d["k"].append(val)` on a `str`, raising
`AttributeError`, which aborts the whole request instead of collecting
the value into a list. -/
theorem claim_C5_counterexample :
    parse_urlencoded_params (S "k=1&k[]=2") = .error .attrError := by decide

/-- C5 (amended): for every query string in which no key occurs both
with and without the `[]` suffix, each `key=value` pair is
percent-decoded; a decoded key ending in `[]` has the suffix stripped
and its values collected, in order of appearance, into a list under the
stripped key; and for a key not ending in `[]` the last occurrence's
value wins. -/
theorem claim_C5_amended (q : Str) (h : noMixB (pySplitAll (S "&") q) = true) :
    ∃ d, parse_urlencoded_params q = .ok d ∧
      ∀ k, fdLookup d k =
        (match bracketVals (pySplitAll (S "&") q) k,
               (plainVals (pySplitAll (S "&") q) k).getLast? with
         | [], none => none
         | [], some v => some (.vstr v)
         | _ :: _, _ => some (.vlist (bracketVals (pySplitAll (S "&") q) k))) := by
  obtain ⟨d, h1, h2⟩ := urlParamsGo_spec (pySplitAll (S "&") q) [] (noMixB_spec h)
    (fun _ _ => Or.inl rfl)
  refine ⟨d, h1, fun k => ?_⟩
  have h2k := h2 k
  have hemp : fdLookup ([] : FDict) k = none := rfl
  have hprev : prevListOf ([] : FDict) k = [] := rfl
  rw [hemp, hprev] at h2k
  simpa using h2k

/-- Witness for the amended C5 at a concrete query string. -/
theorem claim_C5_witness :
    noMixB (pySplitAll (S "&") (S "a=1&a=2&b%5B%5D=x&b[]=y")) = true ∧
    ∃ d, parse_urlencoded_params (S "a=1&a=2&b%5B%5D=x&b[]=y") = .ok d ∧
      ∀ k, fdLookup d k =
        (match bracketVals (pySplitAll (S "&") (S "a=1&a=2&b%5B%5D=x&b[]=y")) k,
               (plainVals (pySplitAll (S "&") (S "a=1&a=2&b%5B%5D=x&b[]=y")) k).getLast? with
         | [], none => none
         | [], some v => some (.vstr v)
         | _ :: _, _ =>
           some (.vlist (bracketVals (pySplitAll (S "&") (S "a=1&a=2&b%5B%5D=x&b[]=y")) k))) :=
  ⟨by decide, claim_C5_amended (S "a=1&a=2&b%5B%5D=x&b[]=y") (by decide)⟩

/-! # Claim C6 -/

theorem pyStrip_append_ws (x y : Str) (hy : ∀ c ∈ y, pyIsSpace c = true) :
    pyStrip (x ++ y) = pyStrip x := by
  unfold pyStrip
  rw [List.dropWhile_append]
  by_cases hx : (x.dropWhile pyIsSpace).isEmpty
  · have hy0 : y.dropWhile pyIsSpace = [] := List.dropWhile_eq_nil_iff.mpr hy
    have hx0 : x.dropWhile pyIsSpace = [] := by simpa [List.isEmpty_iff] using hx
    simp [hy0, hx0]
  · rw [if_neg hx]
    rw [List.reverse_append, List.dropWhile_append]
    have hy0 : y.reverse.dropWhile pyIsSpace = [] :=
      List.dropWhile_eq_nil_iff.mpr (by simpa using hy)
    simp [hy0]

theorem pyStrip_cons_space (c : Char) (s : Str) (hc : pyIsSpace c = true) :
    pyStrip (c :: s) = pyStrip s := by
  unfold pyStrip
  rw [List.dropWhile_cons_of_pos hc]

theorem pyStrip_id (s : Str)
    (h1 : ∀ c, s.head? = some c → pyIsSpace c = false)
    (h2 : ∀ c, s.getLast? = some c → pyIsSpace c = false) :
    pyStrip s = s := by
  unfold pyStrip
  cases hs : s with
  | nil => rfl
  | cons a t =>
    have ha : pyIsSpace a = false := h1 a (by rw [hs]; rfl)
    rw [List.dropWhile_cons_of_neg (by simp [ha])]
    cases hrev : (a :: t).reverse with
    | nil => simp at hrev
    | cons b r =>
      have hb : pyIsSpace b = false := by
        refine h2 b ?_
        rw [hs, ← List.head?_reverse, hrev]
        rfl
      rw [List.dropWhile_cons_of_neg (by simp [hb])]
      rw [← hrev]
      simp

theorem pyStrip_all_id (s : Str) (h : ∀ c ∈ s, pyIsSpace c = false) :
    pyStrip s = s := by
  refine pyStrip_id s (fun c hc => h c ?_) (fun c hc => h c ?_)
  · exact List.mem_of_mem_head? hc
  · exact List.mem_of_mem_getLast? hc

theorem splitFirst_none_of_not_mem (p0 : Char) (pr : Str) (s : Str)
    (h : ∀ c ∈ s, c ≠ p0) : splitFirst (p0 :: pr) s = none := by
  have h2 : splitFirst (p0 :: pr) (s ++ []) =
      (splitFirst (p0 :: pr) ([] : Str)).map (fun x => (s ++ x.1, x.2)) :=
    splitFirst_append_left s [] h
  rw [List.append_nil] at h2
  rw [h2]
  simp [splitFirst]

theorem splitAllGo_fuel (sep : Str) (hsep : sep ≠ []) :
    ∀ (f1 f2 : Nat) (s : Str), s.length ≤ f1 → s.length ≤ f2 →
      splitAllGo sep f1 s = splitAllGo sep f2 s := by
  intro f1
  induction f1 with
  | zero =>
    intro f2 s h1 h2
    have hs : s = [] := by
      cases s with
      | nil => rfl
      | cons c cs => simp at h1
    subst hs
    cases f2 with
    | zero => rfl
    | succ f2 =>
      have : splitFirst sep ([] : Str) = none := by
        cases sep with
        | nil => exact absurd rfl hsep
        | cons a q => simp [splitFirst]
      simp [splitAllGo, this]
  | succ f1 ih =>
    intro f2 s h1 h2
    cases f2 with
    | zero =>
      have hs : s = [] := by
        cases s with
        | nil => rfl
        | cons c cs => simp at h2
      subst hs
      have : splitFirst sep ([] : Str) = none := by
        cases sep with
        | nil => exact absurd rfl hsep
        | cons a q => simp [splitFirst]
      simp [splitAllGo, this]
    | succ f2 =>
      cases hx : splitFirst sep s with
      | none => simp [splitAllGo, hx]
      | some x =>
        obtain ⟨a, b⟩ := x
        have hlen := splitFirst_length hx
        have hsep1 : 1 ≤ sep.length := by
          cases sep with
          | nil => exact absurd rfl hsep
          | cons c cs => simp
        have hb1 : b.length ≤ f1 := by omega
        have hb2 : b.length ≤ f2 := by omega
        simp only [splitAllGo, hx]
        rw [ih f2 b hb1 hb2]

theorem pySplitAll_eq (sep s : Str) (hsep : sep ≠ []) :
    pySplitAll sep s =
      (match splitFirst sep s with
       | none => [s]
       | some x => x.1 :: pySplitAll sep x.2) := by
  cases hx : splitFirst sep s with
  | none =>
    unfold pySplitAll
    cases hf : s.length with
    | zero => rfl
    | succ n => simp [splitAllGo, hx]
  | some x =>
    obtain ⟨a, b⟩ := x
    have hlen := splitFirst_length hx
    have hsep1 : 1 ≤ sep.length := by
      cases sep with
      | nil => exact absurd rfl hsep
      | cons c cs => simp
    have hslen : b.length + 1 ≤ s.length := by omega
    unfold pySplitAll
    cases hf : s.length with
    | zero => omega
    | succ n =>
      simp only [splitAllGo, hx]
      rw [splitAllGo_fuel sep hsep n b.length b (by omega) (by omega)]

theorem recv_step (c : Char) (s : Str)
    (h1 : begins (S "\r\n\r\n") (c :: s) = false)
    (h2 : begins (S "\n\n") (c :: s) = false) :
    recv_until_headers (c :: s) =
      (recv_until_headers s).map (fun p => (c :: p.1, p.2)) := by
  rw [recv_until_headers, if_neg (by simp [h1]), if_neg (by simp [h2])]
  cases recv_until_headers s with
  | none => rfl
  | some p => cases p; rfl

theorem recv_skip (L t : Str) (hL : ∀ c ∈ L, c ≠ '\r' ∧ c ≠ '\n') :
    recv_until_headers (L ++ t) =
      (recv_until_headers t).map (fun p => (L ++ p.1, p.2)) := by
  induction L with
  | nil =>
    simp only [List.nil_append]
    cases recv_until_headers t with
    | none => rfl
    | some p => cases p; rfl
  | cons c L ih =>
    obtain ⟨hc1, hc2⟩ := hL c (by simp)
    have h1 : begins (S "\r\n\r\n") (c :: (L ++ t)) = false := by
      simp only [S]
      show (('\r' == c) && _) = false
      simp [beq_eq_false_iff_ne]
      exact fun he => absurd he.symm hc1
    have h2 : begins (S "\n\n") (c :: (L ++ t)) = false := by
      simp only [S]
      show (('\n' == c) && _) = false
      simp [beq_eq_false_iff_ne]
      exact fun he => absurd he.symm hc2
    rw [List.cons_append, recv_step c (L ++ t) h1 h2,
      ih (fun c2 hc => hL c2 (by simp [hc]))]
    cases recv_until_headers t with
    | none => rfl
    | some p => cases p; rfl

/-- Decoding of a one-header request whose lines end with CRLF, for
either header-block terminator the framer tolerates: the decoded
request is the same (only `summary` depends on `T`). -/
theorem recvOne_tolerant (m u ver k v T : Str)
    (hm : ∀ c ∈ m, c ≠ ' ' ∧ c ≠ '\r' ∧ c ≠ '\n')
    (hu : ∀ c ∈ u, c ≠ ' ' ∧ c ≠ '\r' ∧ c ≠ '\n' ∧ c ≠ '?')
    (hver : ∀ c ∈ ver, c ≠ '\r' ∧ c ≠ '\n')
    (hk0 : k ≠ [])
    (hk : ∀ c ∈ k, pyIsSpace c = false ∧ c ≠ ':')
    (hv : ∀ c ∈ v, c ≠ '\r' ∧ c ≠ '\n')
    (hcl : pyLower k ≠ S "content-length")
    (hT : T = S "\r\n\r\n" ∨ T = S "\n\n") :
    recv_one_request_from_client
      (m ++ S " " ++ u ++ S " " ++ ver ++ S "\r\n" ++ k ++ S ": " ++ v ++ T) =
    some { summary := m ++ S " " ++ u ++ S " " ++ ver ++ S "\r\n" ++ k ++ S ": " ++ v ++ T,
           method := m, urlpath := u, version := none,
           path := pyUnquoteCore false u, params := [],
           headers := [(k, pyStrip (S " " ++ v))],
           keep_alive :=
             (match ciLookup [(k, pyStrip (S " " ++ v))] (S "Connection") with
              | some vv => pyLower vv == S "keep-alive"
              | none => false),
           content_length := 0, content := [], plaintext_content := [],
           form_content := [] } := by
  obtain ⟨kh, kt, rfl⟩ : ∃ kh kt, k = kh :: kt := by
    cases k with
    | nil => exact absurd rfl hk0
    | cons kh kt => exact ⟨kh, kt, rfl⟩
  have hkh := hk kh (by simp)
  have hkhsp : kh ≠ ' ' ∧ kh ≠ '\t' ∧ kh ≠ '\r' ∧ kh ≠ '\n' := by
    refine ⟨?_, ?_, ?_, ?_⟩ <;>
      · intro he
        have := hkh.1
        rw [he] at this
        simp [pyIsSpace] at this
  have hshape : m ++ S " " ++ u ++ S " " ++ ver ++ S "\r\n" ++ (kh :: kt) ++ S ": " ++ v ++ T =
      (m ++ S " " ++ u ++ S " " ++ ver) ++
        (S "\r\n" ++ (((kh :: kt) ++ S ": " ++ v) ++ T)) := by
    simp [List.append_assoc]
  rw [hshape]
  set L1 := m ++ S " " ++ u ++ S " " ++ ver with hL1def
  set L2 := (kh :: kt) ++ S ": " ++ v with hL2def
  have hL1 : ∀ c ∈ L1, c ≠ '\r' ∧ c ≠ '\n' := by
    intro c hc
    rw [hL1def] at hc
    simp only [List.mem_append] at hc
    rcases hc with (((hc | hc) | hc) | hc) | hc
    · exact ⟨(hm c hc).2.1, (hm c hc).2.2⟩
    · simp [S] at hc
      subst hc
      exact ⟨by decide, by decide⟩
    · exact ⟨(hu c hc).2.1, (hu c hc).2.2.1⟩
    · simp [S] at hc
      subst hc
      exact ⟨by decide, by decide⟩
    · exact hver c hc
  have hL1sp : ∀ c ∈ m, c ≠ ' ' := fun c hc => (hm c hc).1
  have hL2 : ∀ c ∈ L2, c ≠ '\r' ∧ c ≠ '\n' := by
    intro c hc
    rw [hL2def] at hc
    simp only [List.mem_append] at hc
    rcases hc with (hc | hc) | hc
    · constructor
      · intro he
        have := (hk c hc).1
        rw [he] at this
        simp [pyIsSpace] at this
      · intro he
        have := (hk c hc).1
        rw [he] at this
        simp [pyIsSpace] at this
    · simp [S] at hc
      rcases hc with rfl | rfl
      · exact ⟨by decide, by decide⟩
      · exact ⟨by decide, by decide⟩
    · exact hv c hc
  have hL2cons : ∃ t2, L2 = kh :: t2 := ⟨kt ++ S ": " ++ v, by simp [hL2def]⟩
  obtain ⟨t2, hL2c⟩ := hL2cons
  -- the framer consumes the whole stream for either terminator
  have hrecvT : recv_until_headers T = some (T, []) := by
    rcases hT with rfl | rfl <;> decide
  have hrecvL2 : recv_until_headers (L2 ++ T) = some (L2 ++ T, []) := by
    rw [recv_skip L2 T hL2, hrecvT]
    rfl
  have hstep2 : recv_until_headers (S "\r\n" ++ (L2 ++ T)) =
      some (S "\r\n" ++ (L2 ++ T), []) := by
    have hb1 : begins (S "\r\n\r\n") ('\r' :: '\n' :: (L2 ++ T)) = false := by
      rw [hL2c]
      have : ('\r' == kh) = false := beq_eq_false_iff_ne.mpr (fun he => hkhsp.2.2.1 he.symm)
      simp [S, begins, this]
    have hb1' : begins (S "\n\n") ('\r' :: '\n' :: (L2 ++ T)) = false := by
      simp [S, begins]
    have hb2 : begins (S "\r\n\r\n") ('\n' :: (L2 ++ T)) = false := by
      simp [S, begins]
    have hb2' : begins (S "\n\n") ('\n' :: (L2 ++ T)) = false := by
      rw [hL2c]
      have : ('\n' == kh) = false := beq_eq_false_iff_ne.mpr (fun he => hkhsp.2.2.2 he.symm)
      simp [S, begins, this]
    have hcrlf : S "\r\n" ++ (L2 ++ T) = '\r' :: ('\n' :: (L2 ++ T)) := rfl
    rw [hcrlf, recv_step _ _ hb1 hb1', recv_step _ _ hb2 hb2', hrecvL2]
    rfl
  have hrecvAll : recv_until_headers (L1 ++ (S "\r\n" ++ (L2 ++ T))) =
      some (L1 ++ (S "\r\n" ++ (L2 ++ T)), []) := by
    rw [recv_skip L1 _ hL1, hstep2]
    rfl
  -- first line / header split
  have hB : splitFirst (S "\r\n") (L1 ++ (S "\r\n" ++ (L2 ++ T))) =
      some (L1, L2 ++ T) := by
    have h0 : splitFirst (S "\r\n") (L1 ++ (S "\r\n" ++ (L2 ++ T))) =
        (splitFirst (S "\r\n") (S "\r\n" ++ (L2 ++ T))).map
          (fun x => (L1 ++ x.1, x.2)) :=
      splitFirst_append_left L1 _ (fun c hc => (hL1 c hc).1)
    rw [h0, splitFirst_pos (begins_append (S "\r\n") (L2 ++ T))]
    simp [S]
  -- request line split
  have hC1 : splitFirst (S " ") L1 = some (m, u ++ (S " " ++ ver)) := by
    have hre : L1 = m ++ (S " " ++ (u ++ (S " " ++ ver))) := by
      simp [hL1def, List.append_assoc]
    rw [hre]
    have h0 : splitFirst (S " ") (m ++ (S " " ++ (u ++ (S " " ++ ver)))) =
        (splitFirst (S " ") (S " " ++ (u ++ (S " " ++ ver)))).map
          (fun x => (m ++ x.1, x.2)) :=
      splitFirst_append_left m _ hL1sp
    rw [h0, splitFirst_pos (begins_append (S " ") (u ++ (S " " ++ ver)))]
    simp [S]
  have hC2 : splitFirst (S " ") (u ++ (S " " ++ ver)) = some (u, ver) := by
    have h0 : splitFirst (S " ") (u ++ (S " " ++ ver)) =
        (splitFirst (S " ") (S " " ++ ver)).map (fun x => (u ++ x.1, x.2)) :=
      splitFirst_append_left u _ (fun c hc => (hu c hc).1)
    rw [h0, splitFirst_pos (begins_append (S " ") ver)]
    simp [S]
  -- header block parse (the only step that sees the terminator)
  have hcolon : splitFirst (S ":") L2 = some (kh :: kt, S " " ++ v) := by
    have hre : L2 = (kh :: kt) ++ (S ": " ++ v) := by simp [hL2def]
    rw [hre]
    have h0 : splitFirst (S ":") ((kh :: kt) ++ (S ": " ++ v)) =
        (splitFirst (S ":") (S ": " ++ v)).map (fun x => ((kh :: kt) ++ x.1, x.2)) :=
      splitFirst_append_left (kh :: kt) _ (fun c hc => (hk c hc).2)
    rw [h0, splitFirst_pos (by exact begins_append (S ":") (S " " ++ v))]
    simp [S]
  have hkstrip : pyStrip (kh :: kt) = kh :: kt :=
    pyStrip_all_id _ (fun c hc => (hk c hc).1)
  have hContLine : isContLine L2 = false := by
    rw [hL2c]
    show (kh == ' ' || kh == '\t') = false
    have h1 : (kh == ' ') = false := beq_eq_false_iff_ne.mpr hkhsp.1
    have h2 : (kh == '\t') = false := beq_eq_false_iff_ne.mpr hkhsp.2.1
    simp [h1, h2]
  have hcond2 : (kh == ' ' || kh == '\t') = false := by
    have h1 : (kh == ' ') = false := beq_eq_false_iff_ne.mpr hkhsp.1
    have h2 : (kh == '\t') = false := beq_eq_false_iff_ne.mpr hkhsp.2.1
    simp [h1, h2]
  have hhd : parse_http_headers (L2 ++ T) = .ok [(kh :: kt, pyStrip (S " " ++ v))] := by
    have hL2cr : ∀ c ∈ L2, c ≠ '\r' := fun c hc => (hL2 c hc).1
    rcases hT with rfl | rfl
    · -- CRLF-CRLF terminator: lines are [L2, "", ""]
      have hsp1 : splitFirst (S "\r\n") (L2 ++ S "\r\n\r\n") = some (L2, S "\r\n") := by
        have hre : L2 ++ S "\r\n\r\n" = L2 ++ (S "\r\n" ++ S "\r\n") := by simp [S]
        rw [hre]
        have h0 : splitFirst (S "\r\n") (L2 ++ (S "\r\n" ++ S "\r\n")) =
            (splitFirst (S "\r\n") (S "\r\n" ++ S "\r\n")).map
              (fun x => (L2 ++ x.1, x.2)) :=
          splitFirst_append_left L2 _ hL2cr
        rw [h0, splitFirst_pos (begins_append (S "\r\n") (S "\r\n"))]
        simp [S]
      have hlines : pySplitAll (S "\r\n") (L2 ++ S "\r\n\r\n") = [L2, [], []] := by
        rw [pySplitAll_eq _ _ (by decide), hsp1]
        simp only
        rw [show pySplitAll (S "\r\n") (S "\r\n") = [[], []] from by decide]
      rw [parse_http_headers, hlines, hL2c]
      simp only [headerLines, hcond2, Bool.false_eq_true, if_false]
      rw [← hL2c, hcolon]
      simp [hkstrip, ciLookup, ciPut, List.find?]
    · -- bare LF-LF terminator: a single line carrying the trailing LFs
      have hnone : splitFirst (S "\r\n") (L2 ++ S "\n\n") = none := by
        have h0 : splitFirst (S "\r\n") (L2 ++ S "\n\n") =
            (splitFirst (S "\r\n") (S "\n\n")).map (fun x => (L2 ++ x.1, x.2)) :=
          splitFirst_append_left L2 _ hL2cr
        rw [h0, show splitFirst (S "\r\n") (S "\n\n") = none from by decide]
        rfl
      have hlines : pySplitAll (S "\r\n") (L2 ++ S "\n\n") = [L2 ++ S "\n\n"] := by
        rw [pySplitAll_eq _ _ (by decide), hnone]
      have hcolon2 : splitFirst (S ":") (L2 ++ S "\n\n") =
          some (kh :: kt, S " " ++ (v ++ S "\n\n")) := by
        have hre : L2 ++ S "\n\n" = (kh :: kt) ++ (S ": " ++ (v ++ S "\n\n")) := by
          simp [hL2def, List.append_assoc]
        rw [hre]
        have h0 : splitFirst (S ":") ((kh :: kt) ++ (S ": " ++ (v ++ S "\n\n"))) =
            (splitFirst (S ":") (S ": " ++ (v ++ S "\n\n"))).map
              (fun x => ((kh :: kt) ++ x.1, x.2)) :=
          splitFirst_append_left (kh :: kt) _ (fun c hc => (hk c hc).2)
        rw [h0, splitFirst_pos (by exact begins_append (S ":") (S " " ++ (v ++ S "\n\n")))]
        simp [S]
      have hL2c2 : L2 ++ S "\n\n" = kh :: (t2 ++ S "\n\n") := by
        rw [hL2c]
        rfl
      have hvstrip : pyStrip (S " " ++ (v ++ S "\n\n")) = pyStrip (S " " ++ v) := by
        have hre : S " " ++ (v ++ S "\n\n") = (S " " ++ v) ++ S "\n\n" := by
          simp [List.append_assoc]
        rw [hre]
        exact pyStrip_append_ws (S " " ++ v) (S "\n\n") (by decide)
      rw [parse_http_headers, hlines, hL2c2]
      simp only [headerLines, hcond2, Bool.false_eq_true, if_false]
      rw [← hL2c2, hcolon2]
      simp [hkstrip, hvstrip, ciLookup, ciPut, List.find?]
  -- defaults from the single header
  have hq : splitFirst (S "?") u = none :=
    splitFirst_none_of_not_mem '?' [] u (fun c hc => (hu c hc).2.2.2)
  have hCL : ciLookup [(kh :: kt, pyStrip (S " " ++ v))] (S "Content-Length") = none := by
    have hpred : (pyLower (kh :: kt) == pyLower (S "Content-Length")) = false := by
      rw [show pyLower (S "Content-Length") = S "content-length" from by decide]
      exact beq_eq_false_iff_ne.mpr hcl
    simp [ciLookup, List.find?, hpred]
  -- assemble
  rw [recv_one_request_from_client, hrecvAll]
  simp only [hB, hC1, hC2, hhd, hq, hCL]
  rw [show decodeBody [(kh :: kt, pyStrip (S " " ++ v))] 0 [] = some ([], []) from rfl]

/-- C6 counterexample: the claim says the decoder accepts a bare LF-LF
terminator and produces the same decoded request either way.  The
spec-modelled framer does find the `\n\n` terminator, but the decoder
then runs `reqstring.split("\r\n", 1)`, which fails on a request whose
line endings are bare LF, so the request is rejected (`None`) while its
CRLF twin decodes fine. -/
theorem claim_C6_counterexample :
    recv_one_request_from_client (S "GET / HTTP/1.1\nHost: h\n\n") = none ∧
    recv_one_request_from_client (S "GET / HTTP/1.1\n\n") = none ∧
    (recv_one_request_from_client (S "GET / HTTP/1.1\r\nHost: h\r\n\r\n")).isSome = true := by
  decide

/-- C6 (amended): the framer (modelled from the spec) accepts both a
pure CRLF-CRLF and a bare LF-LF header terminator.  For a request whose
request line and header line end with CRLF — the bare terminator only
replacing the final CRLF-CRLF — the decoded request is the same either
way (all fields except the verbatim `summary` text).  A request whose
line endings are themselves bare LF is instead rejected by the decoder
(see the counterexample). -/
theorem claim_C6_amended (m u ver k v : Str)
    (hm : ∀ c ∈ m, c ≠ ' ' ∧ c ≠ '\r' ∧ c ≠ '\n')
    (hu : ∀ c ∈ u, c ≠ ' ' ∧ c ≠ '\r' ∧ c ≠ '\n' ∧ c ≠ '?')
    (hver : ∀ c ∈ ver, c ≠ '\r' ∧ c ≠ '\n')
    (hk0 : k ≠ [])
    (hk : ∀ c ∈ k, pyIsSpace c = false ∧ c ≠ ':')
    (hv : ∀ c ∈ v, c ≠ '\r' ∧ c ≠ '\n')
    (hcl : pyLower k ≠ S "content-length") :
    ∃ r1 r2,
      recv_one_request_from_client
        (m ++ S " " ++ u ++ S " " ++ ver ++ S "\r\n" ++ k ++ S ": " ++ v ++ S "\r\n\r\n") =
        some r1 ∧
      recv_one_request_from_client
        (m ++ S " " ++ u ++ S " " ++ ver ++ S "\r\n" ++ k ++ S ": " ++ v ++ S "\n\n") =
        some r2 ∧
      decodedEq r1 r2 := by
  refine ⟨_, _,
    recvOne_tolerant m u ver k v (S "\r\n\r\n") hm hu hver hk0 hk hv hcl (Or.inl rfl),
    recvOne_tolerant m u ver k v (S "\n\n") hm hu hver hk0 hk hv hcl (Or.inr rfl),
    ?_⟩
  exact ⟨rfl, rfl, rfl, rfl, rfl, rfl, rfl, rfl, rfl, rfl, rfl⟩

/-- Witness for the amended C6 at a concrete request. -/
theorem claim_C6_witness :
    ∃ r1 r2,
      recv_one_request_from_client
        (S "GET" ++ S " " ++ S "/x" ++ S " " ++ S "HTTP/1.1" ++ S "\r\n" ++
          S "Host" ++ S ": " ++ S "example" ++ S "\r\n\r\n") = some r1 ∧
      recv_one_request_from_client
        (S "GET" ++ S " " ++ S "/x" ++ S " " ++ S "HTTP/1.1" ++ S "\r\n" ++
          S "Host" ++ S ": " ++ S "example" ++ S "\n\n") = some r2 ∧
      decodedEq r1 r2 :=
  claim_C6_amended (S "GET") (S "/x") (S "HTTP/1.1") (S "Host") (S "example")
    (by decide) (by decide) (by decide) (by decide) (by decide) (by decide) (by decide)

/-! # Claims C3 and C7: dictionary-level lemmas -/

theorem fdLookup_none_iff {d : FDict} {k : Str} :
    fdLookup d k = none ↔ ∀ e ∈ d, (e.1 == k) = false := by
  induction d with
  | nil => simp [fdLookup, List.find?]
  | cons e rest ih =>
    by_cases he : (e.1 == k) = true
    · constructor
      · intro h
        rw [show fdLookup (e :: rest) k = some e.2 from by
          simp [fdLookup, List.find?, he]] at h
        exact absurd h (by simp)
      · intro h
        have := h e (by simp)
        rw [this] at he
        exact absurd he (by simp)
    · have he2 : (e.1 == k) = false := by
        revert he; cases e.1 == k <;> simp
      simp only [fdLookup, List.find?, he2]
      rw [show (match rest.find? (fun p => p.1 == k) with
          | some p => some p.2
          | none => none) = fdLookup rest k from rfl]
      rw [ih]
      constructor
      · intro h e2 he2m
        rcases List.mem_cons.mp he2m with rfl | hm
        · exact he2
        · exact h e2 hm
      · intro h e2 hm
        exact h e2 (List.mem_cons_of_mem e hm)

theorem fdLookup_some_mem {d : FDict} {k : Str} {v : FVal}
    (h : fdLookup d k = some v) : (k, v) ∈ d := by
  induction d with
  | nil => simp [fdLookup, List.find?] at h
  | cons e rest ih =>
    by_cases he : (e.1 == k) = true
    · simp only [fdLookup, List.find?, he] at h
      have h1 : e.1 = k := by simpa using he
      have h2 : e.2 = v := by simpa using h
      have hkv : (k, v) = e := by rw [← h1, ← h2]
      rw [hkv]
      exact List.mem_cons_self e rest
    · have he2 : (e.1 == k) = false := by
        revert he; cases e.1 == k <;> simp
      simp only [fdLookup, List.find?, he2] at h
      exact List.mem_cons_of_mem e (ih h)

theorem fdPut_append_of_none {d : FDict} {k : Str} (v : FVal)
    (h : fdLookup d k = none) : fdPut d k v = d ++ [(k, v)] := by
  induction d with
  | nil => rfl
  | cons e rest ih =>
    have he : (e.1 == k) = false := fdLookup_none_iff.mp h e (by simp)
    have hrest : fdLookup rest k = none :=
      fdLookup_none_iff.mpr (fun e2 hm => fdLookup_none_iff.mp h e2 (by simp [hm]))
    simp [fdPut, he, ih hrest]

theorem fdPut_keys_of_none {d : FDict} {k : Str} (v : FVal)
    (h : fdLookup d k = none) :
    (fdPut d k v).map Prod.fst = d.map Prod.fst ++ [k] := by
  rw [fdPut_append_of_none v h]
  simp

theorem fdPut_keys_of_some {d : FDict} {k : Str} {w : FVal} (v : FVal)
    (h : fdLookup d k = some w) :
    (fdPut d k v).map Prod.fst = d.map Prod.fst := by
  induction d with
  | nil => simp [fdLookup, List.find?] at h
  | cons e rest ih =>
    by_cases he : (e.1 == k) = true
    · have h1 : e.1 = k := by simpa using he
      simp [fdPut, he, h1]
    · have he2 : (e.1 == k) = false := by
        revert he; cases e.1 == k <;> simp
      simp only [fdLookup, List.find?, he2] at h
      simp [fdPut, he2, ih h]

theorem fdPut_entry_mem {d : FDict} {k : Str} {v : FVal} {e : Str × FVal}
    (h : e ∈ fdPut d k v) : e ∈ d ∨ e = (k, v) := by
  induction d with
  | nil => simpa [fdPut] using h
  | cons e2 rest ih =>
    by_cases he : (e2.1 == k) = true
    · simp only [fdPut, he, if_true] at h
      rcases List.mem_cons.mp h with rfl | hm
      · exact Or.inr rfl
      · exact Or.inl (List.mem_cons_of_mem e2 hm)
    · have he2 : (e2.1 == k) = false := by
        revert he; cases e2.1 == k <;> simp
      simp only [fdPut, he2, Bool.false_eq_true, if_false] at h
      rcases List.mem_cons.mp h with rfl | hm
      · exact Or.inl (by simp)
      · rcases ih hm with hm2 | hm2
        · exact Or.inl (List.mem_cons_of_mem e2 hm2)
        · exact Or.inr hm2

theorem fdPut_replace_at_end (pre : FDict) (k : Str) (w v : FVal)
    (h : fdLookup pre k = none) :
    fdPut (pre ++ [(k, w)]) k v = pre ++ [(k, v)] := by
  induction pre with
  | nil => simp [fdPut]
  | cons e rest ih =>
    have he : (e.1 == k) = false := fdLookup_none_iff.mp h e (by simp)
    have hrest : fdLookup rest k = none :=
      fdLookup_none_iff.mpr (fun e2 hm => fdLookup_none_iff.mp h e2 (by simp [hm]))
    simp [fdPut, he, ih hrest]

theorem fdLookup_append_right (pre : FDict) (k : Str) (v : FVal)
    (h : fdLookup pre k = none) :
    fdLookup (pre ++ [(k, v)]) k = some v := by
  induction pre with
  | nil => simp [fdLookup, List.find?]
  | cons e rest ih =>
    have he : (e.1 == k) = false := fdLookup_none_iff.mp h e (by simp)
    have hrest : fdLookup rest k = none :=
      fdLookup_none_iff.mpr (fun e2 hm => fdLookup_none_iff.mp h e2 (by simp [hm]))
    simpa [fdLookup, List.find?, he] using ih hrest

theorem fdLookup_append_none (pre : FDict) (k k2 : Str) (v : FVal)
    (h : fdLookup pre k2 = none) (hne : k2 ≠ k) :
    fdLookup (pre ++ [(k, v)]) k2 = none := by
  refine fdLookup_none_iff.mpr ?_
  intro e hm
  rcases List.mem_append.mp hm with hm2 | hm2
  · exact fdLookup_none_iff.mp h e hm2
  · simp only [List.mem_singleton] at hm2
    subst hm2
    exact beq_eq_false_iff_ne.mpr (fun he => hne he.symm)

theorem marker_key (k : Str) :
    (k ++ S "[]").take ((k ++ S "[]").length - 2) = k := by
  have hlen : (k ++ S "[]").length - 2 = k.length := by simp [S]
  rw [hlen, List.take_left]

theorem partKey_of_marker {p : MultipartFormData} {k : Str}
    (h : p.fieldname = k ++ S "[]") : partKey p = k := by
  rw [partKey, h, if_pos (finishes_marker k)]
  exact marker_key k

theorem partKey_of_plain {p : MultipartFormData}
    (h : finishes (S "[]") p.fieldname = false) : partKey p = p.fieldname := by
  rw [partKey, h]
  simp

theorem multipartStep_eq_mpInsert (d : FDict) (p : MultipartFormData)
    (h : finishes (S "[]") p.fieldname = true →
      fdLookup d (partKey p) = none ∨
        ∃ xs, fdLookup d (partKey p) = some (.vparts xs)) :
    multipartStep d p.fieldname p = .ok (mpInsert d p) := by
  by_cases hf : finishes (S "[]") p.fieldname = true
  · have hpk : partKey p = p.fieldname.take (p.fieldname.length - 2) := by
      rw [partKey, hf]
      simp
    rcases h hf with hnone | ⟨xs, hxs⟩
    · rw [hpk] at hnone
      simp [multipartStep, mpInsert, hf, hnone]
    · rw [hpk] at hxs
      simp [multipartStep, mpInsert, hf, hxs]
  · have hf2 : finishes (S "[]") p.fieldname = false := by
      revert hf; cases finishes (S "[]") p.fieldname <;> simp
    simp [multipartStep, mpInsert, hf2]

theorem mpInsert_lookup_other (d : FDict) (p : MultipartFormData) (k : Str)
    (h : k ≠ partKey p) : fdLookup (mpInsert d p) k = fdLookup d k := by
  by_cases hf : finishes (S "[]") p.fieldname = true
  · have hpk : partKey p = p.fieldname.take (p.fieldname.length - 2) := by
      rw [partKey, hf]
      simp
    rw [hpk] at h
    rw [mpInsert]
    simp only [hf, if_true]
    cases fdLookup d (p.fieldname.take (p.fieldname.length - 2)) with
    | none => exact fdLookup_fdPut_other d _ k _ h
    | some w =>
      cases w with
      | vparts xs => exact fdLookup_fdPut_other d _ k _ h
      | vstr s => exact fdLookup_fdPut_other d _ k _ h
      | vlist l => exact fdLookup_fdPut_other d _ k _ h
      | vpart q => exact fdLookup_fdPut_other d _ k _ h
  · have hf2 : finishes (S "[]") p.fieldname = false := by
      revert hf; cases finishes (S "[]") p.fieldname <;> simp
    have hpk : partKey p = p.fieldname := partKey_of_plain hf2
    rw [hpk] at h
    simp only [mpInsert, hf2, Bool.false_eq_true, if_false]
    exact fdLookup_fdPut_other d _ k _ h

theorem mpFold_append (d : FDict) (xs ys : List MultipartFormData) :
    mpFold d (xs ++ ys) = mpFold (mpFold d xs) ys := by
  simp [mpFold, List.foldl_append]

theorem mpFold_lookup_frame (d : FDict) (ps : List MultipartFormData) (k : Str)
    (h : ∀ p ∈ ps, partKey p ≠ k) :
    fdLookup (mpFold d ps) k = fdLookup d k := by
  induction ps generalizing d with
  | nil => rfl
  | cons p ps ih =>
    rw [show mpFold d (p :: ps) = mpFold (mpInsert d p) ps from rfl]
    rw [ih (mpInsert d p) (fun q hq => h q (by simp [hq]))]
    exact mpInsert_lookup_other d p k (fun he => h p (by simp) he.symm)

theorem mem_keys_iff {d : FDict} {k : Str} :
    k ∈ d.map Prod.fst ↔ ∃ v, (k, v) ∈ d := by
  constructor
  · intro h
    obtain ⟨e, he, rfl⟩ := List.mem_map.mp h
    exact ⟨e.2, by simpa using he⟩
  · rintro ⟨v, hv⟩
    exact List.mem_map.mpr ⟨(k, v), hv, rfl⟩

theorem fdLookup_none_not_mem {d : FDict} {k : Str}
    (h : fdLookup d k = none) : k ∉ d.map Prod.fst := by
  intro hmem
  obtain ⟨v, hv⟩ := mem_keys_iff.mp hmem
  have := fdLookup_none_iff.mp h (k, v) hv
  simp at this

theorem goodDict_nil : GoodDict [] := ⟨List.nodup_nil, by simp⟩

theorem mpInsert_good (d : FDict) (p : MultipartFormData) (h : GoodDict d) :
    GoodDict (mpInsert d p) := by
  obtain ⟨hnd, hge⟩ := h
  by_cases hf : finishes (S "[]") p.fieldname = true
  · rw [mpInsert]
    simp only [hf, if_true]
    set k := p.fieldname.take (p.fieldname.length - 2) with hk
    have hfield : p.fieldname = k ++ S "[]" := (finishes_decomp hf).symm
    have hgoal : ∀ xs, (∀ x ∈ xs, x.fieldname = k ++ S "[]") → xs ≠ [] →
        GoodDict (fdPut d k (.vparts xs)) := by
      intro xs hxs hne
      constructor
      · cases hlook : fdLookup d k with
        | none =>
          rw [fdPut_keys_of_none _ hlook, List.nodup_append]
          refine ⟨hnd, List.nodup_singleton _, ?_⟩
          intro a ha hb
          simp only [List.mem_singleton] at hb
          subst hb
          exact fdLookup_none_not_mem hlook ha
        | some w => rw [fdPut_keys_of_some _ hlook]; exact hnd
      · intro e he
        rcases fdPut_entry_mem he with hm | rfl
        · exact hge e hm
        · exact ⟨hne, hxs⟩
    cases hlook : fdLookup d k with
    | none => exact hgoal [p] (by simpa using hfield) (by simp)
    | some w =>
      cases w with
      | vparts xs =>
        have hmem : (k, FVal.vparts xs) ∈ d := fdLookup_some_mem hlook
        have hold := hge _ hmem
        obtain ⟨hne, hxs⟩ : xs ≠ [] ∧ ∀ x ∈ xs, x.fieldname = k ++ S "[]" := hold
        exact hgoal (xs ++ [p])
          (by
            intro x hx
            rcases List.mem_append.mp hx with hx | hx
            · exact hxs x hx
            · simp only [List.mem_singleton] at hx
              subst hx
              exact hfield)
          (by simp)
      | vstr sv => exact hgoal [p] (by simpa using hfield) (by simp)
      | vlist lv => exact hgoal [p] (by simpa using hfield) (by simp)
      | vpart q => exact hgoal [p] (by simpa using hfield) (by simp)
  · have hf2 : finishes (S "[]") p.fieldname = false := by
      revert hf; cases finishes (S "[]") p.fieldname <;> simp
    rw [mpInsert]
    simp only [hf2, Bool.false_eq_true, if_false]
    constructor
    · cases hlook : fdLookup d p.fieldname with
      | none =>
        rw [fdPut_keys_of_none _ hlook, List.nodup_append]
        refine ⟨hnd, List.nodup_singleton _, ?_⟩
        intro a ha hb
        simp only [List.mem_singleton] at hb
        subst hb
        exact fdLookup_none_not_mem hlook ha
      | some w => rw [fdPut_keys_of_some _ hlook]; exact hnd
    · intro e he
      rcases fdPut_entry_mem he with hm | rfl
      · exact hge e hm
      · exact ⟨rfl, hf2⟩

theorem mpFold_good (d : FDict) (ps : List MultipartFormData) (h : GoodDict d) :
    GoodDict (mpFold d ps) := by
  induction ps generalizing d with
  | nil => exact h
  | cons p ps ih => exact ih (mpInsert d p) (mpInsert_good d p h)

theorem flattenD_mem {d : FDict} {q : MultipartFormData} :
    q ∈ flattenD d ↔ ∃ e ∈ d, q ∈ entryParts e := by
  unfold flattenD
  constructor
  · intro h
    obtain ⟨l, hl, hq⟩ := List.mem_flatten.mp h
    obtain ⟨e, he, rfl⟩ := List.mem_map.mp hl
    exact ⟨e, he, hq⟩
  · rintro ⟨e, he, hq⟩
    exact List.mem_flatten.mpr ⟨entryParts e, List.mem_map.mpr ⟨e, he, rfl⟩, hq⟩

theorem mpInsert_flatten_mem {d : FDict} {p q : MultipartFormData}
    (hq : q ∈ flattenD (mpInsert d p)) : q ∈ flattenD d ∨ q = p := by
  obtain ⟨e, he, hqe⟩ := flattenD_mem.mp hq
  have hGen : ∀ k xs, e = (k, FVal.vparts xs) →
      (∀ x, fdLookup d k = some (.vparts x) → (k, FVal.vparts x) ∈ d) := by
    intro _ _ _ x hx
    exact fdLookup_some_mem hx
  by_cases hf : finishes (S "[]") p.fieldname = true
  · rw [mpInsert] at he
    simp only [hf, if_true] at he
    set k := p.fieldname.take (p.fieldname.length - 2) with hk
    cases hlook : fdLookup d k with
    | none =>
      rw [hlook] at he
      rcases fdPut_entry_mem he with hm | rfl
      · exact Or.inl (flattenD_mem.mpr ⟨e, hm, hqe⟩)
      · simp [entryParts] at hqe
        exact Or.inr hqe
    | some w =>
      rw [hlook] at he
      cases w with
      | vparts xs =>
        rcases fdPut_entry_mem he with hm | rfl
        · exact Or.inl (flattenD_mem.mpr ⟨e, hm, hqe⟩)
        · simp only [entryParts] at hqe
          rcases List.mem_append.mp hqe with hx | hx
          · refine Or.inl (flattenD_mem.mpr ⟨(k, .vparts xs), fdLookup_some_mem hlook, ?_⟩)
            simpa [entryParts] using hx
          · simp only [List.mem_singleton] at hx
            exact Or.inr hx
      | vstr sv =>
        rcases fdPut_entry_mem he with hm | rfl
        · exact Or.inl (flattenD_mem.mpr ⟨e, hm, hqe⟩)
        · simp [entryParts] at hqe
          exact Or.inr hqe
      | vlist lv =>
        rcases fdPut_entry_mem he with hm | rfl
        · exact Or.inl (flattenD_mem.mpr ⟨e, hm, hqe⟩)
        · simp [entryParts] at hqe
          exact Or.inr hqe
      | vpart q2 =>
        rcases fdPut_entry_mem he with hm | rfl
        · exact Or.inl (flattenD_mem.mpr ⟨e, hm, hqe⟩)
        · simp [entryParts] at hqe
          exact Or.inr hqe
  · have hf2 : finishes (S "[]") p.fieldname = false := by
      revert hf; cases finishes (S "[]") p.fieldname <;> simp
    rw [mpInsert] at he
    simp only [hf2, Bool.false_eq_true, if_false] at he
    rcases fdPut_entry_mem he with hm | rfl
    · exact Or.inl (flattenD_mem.mpr ⟨e, hm, hqe⟩)
    · simp [entryParts] at hqe
      exact Or.inr hqe

theorem mpFold_flatten_mem {d : FDict} {ps : List MultipartFormData}
    {q : MultipartFormData} (hq : q ∈ flattenD (mpFold d ps)) :
    q ∈ flattenD d ∨ q ∈ ps := by
  induction ps generalizing d with
  | nil => exact Or.inl hq
  | cons p ps ih =>
    rcases ih hq with hm | hm
    · rcases mpInsert_flatten_mem hm with hm2 | rfl
      · exact Or.inl hm2
      · exact Or.inr (by simp)
    · exact Or.inr (by simp [hm])

theorem mpFold_vparts (pre : FDict) (k : Str) (ys xs : List MultipartFormData)
    (hx : ∀ x ∈ xs, x.fieldname = k ++ S "[]") (hlook : fdLookup pre k = none) :
    mpFold (pre ++ [(k, .vparts ys)]) xs = pre ++ [(k, .vparts (ys ++ xs))] := by
  induction xs generalizing ys with
  | nil => simp [mpFold]
  | cons x xs ih =>
    have hxf : x.fieldname = k ++ S "[]" := hx x (by simp)
    have hfx : finishes (S "[]") x.fieldname = true := by
      rw [hxf]; exact finishes_marker k
    have hkey : x.fieldname.take (x.fieldname.length - 2) = k := by
      rw [hxf]; exact marker_key k
    have hstep : mpInsert (pre ++ [(k, FVal.vparts ys)]) x =
        pre ++ [(k, FVal.vparts (ys ++ [x]))] := by
      rw [mpInsert]
      simp only [hfx, if_true, hkey]
      rw [fdLookup_append_right pre k _ hlook]
      exact fdPut_replace_at_end pre k _ _ hlook
    rw [show mpFold (pre ++ [(k, FVal.vparts ys)]) (x :: xs) =
        mpFold (mpInsert (pre ++ [(k, FVal.vparts ys)]) x) xs from rfl, hstep,
      ih (ys ++ [x]) (fun x2 hx2 => hx x2 (by simp [hx2]))]
    simp

theorem mpFold_flatten_go (pre d : FDict)
    (hgood : ∀ e ∈ d, goodEntry e)
    (hnodup : (d.map Prod.fst).Nodup)
    (hdisj : ∀ e ∈ d, fdLookup pre e.1 = none) :
    mpFold pre (flattenD d) = pre ++ d := by
  induction d generalizing pre with
  | nil => simp [flattenD, mpFold]
  | cons e d ih =>
    obtain ⟨k, val⟩ := e
    have hflat : flattenD ((k, val) :: d) = entryParts (k, val) ++ flattenD d := by
      simp [flattenD]
    rw [hflat, mpFold_append]
    have hlook : fdLookup pre k = none := hdisj (k, val) (by simp)
    have hstepA : mpFold pre (entryParts (k, val)) = pre ++ [(k, val)] := by
      have hg := hgood (k, val) (by simp)
      cases val with
      | vpart p =>
        obtain ⟨hfe, hff⟩ : p.fieldname = k ∧ finishes (S "[]") k = false := hg
        show mpInsert pre p = pre ++ [(k, FVal.vpart p)]
        rw [mpInsert]
        rw [show finishes (S "[]") p.fieldname = false from hfe ▸ hff]
        simp only [Bool.false_eq_true, if_false]
        rw [hfe, fdPut_append_of_none _ hlook]
      | vparts xs =>
        obtain ⟨hne, hxs⟩ : xs ≠ [] ∧ ∀ x ∈ xs, x.fieldname = k ++ S "[]" := hg
        cases xs with
        | nil => exact absurd rfl hne
        | cons x0 xs2 =>
          have hx0 : x0.fieldname = k ++ S "[]" := hxs x0 (by simp)
          have hfx : finishes (S "[]") x0.fieldname = true := by
            rw [hx0]; exact finishes_marker k
          have hkey : x0.fieldname.take (x0.fieldname.length - 2) = k := by
            rw [hx0]; exact marker_key k
          have hstep : mpInsert pre x0 = pre ++ [(k, FVal.vparts [x0])] := by
            rw [mpInsert]
            simp only [hfx, if_true, hkey, hlook]
            exact fdPut_append_of_none _ hlook
          rw [show mpFold pre (entryParts (k, FVal.vparts (x0 :: xs2))) =
              mpFold (mpInsert pre x0) xs2 from rfl, hstep,
            mpFold_vparts pre k [x0] xs2 (fun x hx => hxs x (by simp [hx])) hlook]
          rfl
      | vstr sv => exact absurd hg (by simp [goodEntry])
      | vlist lv => exact absurd hg (by simp [goodEntry])
    rw [hstepA]
    have hk_not_d : k ∉ d.map Prod.fst := by
      have := hnodup
      simp only [List.map_cons, List.nodup_cons] at this
      exact this.1
    rw [ih (pre ++ [(k, val)])
      (fun e2 he2 => hgood e2 (by simp [he2]))
      (by simpa using hnodup.of_cons)
      (by
        intro e2 he2
        refine fdLookup_append_none pre k e2.1 val (hdisj e2 (by simp [he2])) ?_
        intro hcontra
        exact hk_not_d (hcontra ▸ mem_keys_iff.mpr ⟨e2.2, by simpa using he2⟩))]
    simp

theorem mpFold_flatten (d : FDict) (h : GoodDict d) :
    mpFold [] (flattenD d) = d := by
  have := mpFold_flatten_go [] d h.2 h.1 (fun e _ => rfl)
  simpa using this

/-! # Claims C3 and C7: string lemmas for the multipart wire format -/

theorem wfPart_unpack {B : Str} {p : MultipartFormData} (h : wfPart B p = true) :
    (∀ c ∈ p.fieldname, c ≠ '"' ∧ c ≠ '\r' ∧ c ≠ '\n') ∧
    finishes (S "filename=") p.fieldname = false ∧
    (∀ c ∈ p.filename, c ≠ '"' ∧ c ≠ '\r' ∧ c ≠ '\n') ∧
    (∀ mt, p.mimetype = some mt → (∀ c ∈ mt, c ≠ '\r' ∧ c ≠ '\n') ∧ pyStrip mt = mt) ∧
    containsSub (S "\r\n" ++ (S "--" ++ B))
      (p.data ++ (S "\r\n" ++ (S "--" ++ B)).dropLast) = false := by
  simp only [wfPart, Bool.and_eq_true, List.all_eq_true, Bool.not_eq_true',
    Bool.or_eq_false_iff, beq_eq_false_iff_ne, and_assoc] at h
  obtain ⟨h1, h2, h3, h4, h5⟩ := h
  refine ⟨h1, h2, h3, ?_, h5⟩
  intro mt hmt
  rw [hmt] at h4
  simp only [Bool.and_eq_true, List.all_eq_true, Bool.not_eq_true',
    beq_eq_false_iff_ne, Bool.or_eq_false_iff, beq_iff_eq, and_assoc] at h4
  exact h4

theorem finishes_cons_of {p t : Str} (c : Char) (h : finishes p t = true) :
    finishes p (c :: t) = true := by
  obtain ⟨t0, rfl⟩ := finishes_iff.mp h
  exact finishes_iff.mpr ⟨c :: t0, rfl⟩

theorem takeWhile_no_quote (L t : Str) (h : ∀ c ∈ L, c ≠ '"') :
    (L ++ (S "\"" ++ t)).takeWhile (fun x => !(x == '"')) = L := by
  induction L with
  | nil => simp [S, List.takeWhile_cons]
  | cons c L ih =>
    have hc : (c == '"') = false := beq_eq_false_iff_ne.mpr (h c (by simp))
    have ih2 := ih (fun x hx => h x (by simp [hx]))
    simp [List.takeWhile_cons, hc, ih2]

theorem scan_last_quote (q : Str) (hq0 : q ≠ []) (hq : ∀ c ∈ q, c ≠ '"')
    (rest : Str) (hrest : splitFirst (q ++ S "\"") rest = none) :
    ∀ fn : Str, (∀ c ∈ fn, c ≠ '"') → finishes q fn = false →
      splitFirst (q ++ S "\"") (fn ++ (S "\"" ++ rest)) = none := by
  intro fn
  induction fn with
  | nil =>
    intro _ _
    obtain ⟨c, q2, rfl⟩ : ∃ c q2, q = c :: q2 := by
      cases q with
      | nil => exact absurd rfl hq0
      | cons c q2 => exact ⟨c, q2, rfl⟩
    simp only [List.nil_append]
    have hsr : S "\"" ++ rest = '"' :: rest := by
      rw [show S "\"" = ['"'] from by decide]
      simp
    rw [hsr]
    have hb : begins ((c :: q2) ++ S "\"") ('"' :: rest) = false := by
      have hc : (c == '"') = false := beq_eq_false_iff_ne.mpr (hq c (by simp))
      simp [begins, hc]
    rw [splitFirst_cons_neg hb, hrest]
    rfl
  | cons c fn ih =>
    intro hfn hnofin
    have hcq : c ≠ '"' := hfn c (by simp)
    by_cases hb : begins (q ++ S "\"") ((c :: fn) ++ (S "\"" ++ rest)) = true
    · exfalso
      obtain ⟨t, ht⟩ := begins_iff.mp hb
      have hL : ((c :: fn) ++ (S "\"" ++ rest)).takeWhile (fun x => !(x == '"')) =
          c :: fn :=
        takeWhile_no_quote (c :: fn) rest (by
          intro x hx
          rcases List.mem_cons.mp hx with h1 | h1
          · rw [h1]; exact hcq
          · exact hfn x (List.mem_cons_of_mem c h1))
      have hR : (q ++ (S "\"" ++ t)).takeWhile (fun x => !(x == '"')) = q :=
        takeWhile_no_quote q t hq
      have hEq : (c :: fn) ++ (S "\"" ++ rest) = q ++ (S "\"" ++ t) := by
        simpa [List.append_assoc] using ht
      have hqe : c :: fn = q := by
        rw [← hL, ← hR, hEq]
      rw [← hqe] at hnofin
      have hself : finishes (c :: fn) (c :: fn) = true := finishes_iff.mpr ⟨[], rfl⟩
      rw [hself] at hnofin
      simp at hnofin
    · have hb2 : begins (q ++ S "\"") (c :: (fn ++ (S "\"" ++ rest))) = false := by
        rw [← List.cons_append]
        revert hb
        cases begins (q ++ S "\"") ((c :: fn) ++ (S "\"" ++ rest)) <;> simp
      rw [List.cons_append, splitFirst_cons_neg hb2,
        ih (fun c2 hc2 => hfn c2 (by simp [hc2]))
          (by
            by_contra hcontra
            have hft : finishes q fn = true := by
              revert hcontra; cases finishes q fn <;> simp
            rw [finishes_cons_of c hft] at hnofin
            exact absurd hnofin (by simp))]
      rfl

theorem splitFirst_none_cons {pat : Str} {c : Char} {cs : Str}
    (hb : begins pat (c :: cs) = false) (h : splitFirst pat cs = none) :
    splitFirst pat (c :: cs) = none := by
  rw [splitFirst_cons_neg hb, h]
  rfl

theorem splitFirst_none_append (p0 : Char) (pr L t : Str) (hL : ∀ c ∈ L, c ≠ p0)
    (h : splitFirst (p0 :: pr) t = none) : splitFirst (p0 :: pr) (L ++ t) = none := by
  rw [splitFirst_append_left L t hL, h]
  rfl

theorem getLast?_append_ne {α : Type} (a b : List α) (h : b ≠ []) :
    (a ++ b).getLast? = b.getLast? := by
  induction a with
  | nil => rfl
  | cons x a ih =>
    have hne : a ++ b ≠ [] := fun hnil => h (List.append_eq_nil.mp hnil).2
    rw [List.cons_append, getLast?_cons_ne x hne, ih]

theorem getLast?_quote (a : Str) : (a ++ S "\"").getLast? = some '"' := by
  rw [getLast?_append_ne a (S "\"") (by decide)]
  decide

/-- The encoded `Content-Disposition` value survives `strip()`: it
begins with `f` and ends with a quote. -/
theorem dispVal_strip (p : MultipartFormData) : pyStrip (dispVal p) = dispVal p := by
  have hh : (dispVal p).head? = some 'f' := by
    rw [dispVal,
      show S "form-data; name=\"" = 'f' :: S "orm-data; name=\"" from by decide]
    rfl
  have hl : (dispVal p).getLast? = some '"' := by
    rw [dispVal]
    exact getLast?_quote _
  refine pyStrip_id _ (fun c hc => ?_) (fun c hc => ?_)
  · rw [hh] at hc
    simp at hc
    rw [← hc]
    decide
  · rw [hl] at hc
    simp at hc
    rw [← hc]
    decide

theorem strip_space_dispVal (p : MultipartFormData) :
    pyStrip (S " " ++ dispVal p) = dispVal p := by
  rw [show S " " ++ dispVal p = ' ' :: dispVal p from by
    rw [show S " " = [' '] from by decide]; simp]
  rw [pyStrip_cons_space _ _ (by decide)]
  exact dispVal_strip p

theorem encDisposition_no_cr {B : Str} {p : MultipartFormData}
    (hp : wfPart B p = true) : ∀ c ∈ encDisposition p, c ≠ '\r' := by
  obtain ⟨h1, _, h3, _, _⟩ := wfPart_unpack hp
  intro c hc
  rw [encDisposition] at hc
  simp only [List.mem_append] at hc
  rcases hc with (((hc | hc) | hc) | hc) | hc
  · exact (by decide : ∀ x ∈ S "Content-Disposition: form-data; name=\"", x ≠ '\r') c hc
  · exact (h1 c hc).2.1
  · exact (by decide : ∀ x ∈ S "\"; filename=\"", x ≠ '\r') c hc
  · exact (h3 c hc).2.1
  · exact (by decide : ∀ x ∈ S "\"", x ≠ '\r') c hc

theorem splitAllGo_no_sep (sep s : Str) (h : splitFirst sep s = none) :
    ∀ fuel, splitAllGo sep fuel s = [s] := by
  intro fuel
  cases fuel with
  | zero => rfl
  | succ f => simp [splitAllGo, h]

theorem pySplitAll_no_sep (sep s : Str) (h : splitFirst sep s = none) :
    pySplitAll sep s = [s] := splitAllGo_no_sep sep s h s.length

theorem pySplitAll_two_cr (D1 D2 : Str) (h1 : ∀ c ∈ D1, c ≠ '\r')
    (h2 : splitFirst (S "\r\n") D2 = none) :
    pySplitAll (S "\r\n") (D1 ++ S "\r\n" ++ D2) = [D1, D2] := by
  have hsf : splitFirst (S "\r\n") (D1 ++ S "\r\n" ++ D2) = some (D1, D2) := by
    refine @splitFirst_exact (S "\r\n") D1 D2 (by decide) ?_
    rw [show (S "\r\n").dropLast = S "\r" from by decide, containsSub,
      show S "\r\n" = '\r' :: S "\n" from by decide,
      splitFirst_none_append '\r' (S "\n") D1 (S "\r") h1 (by decide)]
    rfl
  obtain ⟨m, hm⟩ : ∃ m, (D1 ++ S "\r\n" ++ D2).length = m + 1 := by
    refine ⟨(D1 ++ S "\r\n" ++ D2).length - 1, ?_⟩
    rw [List.length_append, List.length_append,
      show (S "\r\n").length = 2 from by decide]
    omega
  rw [pySplitAll, hm]
  simp only [splitAllGo, hsf]
  rw [splitAllGo_no_sep _ _ h2 m]

theorem enc_headers_no4 {B : Str} {p : MultipartFormData} (hp : wfPart B p = true) :
    containsSub (S "\r\n\r\n") (encHeaders p ++ S "\r\n\r") = false := by
  rw [containsSub]
  suffices h : splitFirst (S "\r\n\r\n") (encHeaders p ++ S "\r\n\r") = none by
    rw [h]; rfl
  have hpat : S "\r\n\r\n" = '\r' :: S "\n\r\n" := by decide
  cases hmt : p.mimetype with
  | none =>
    rw [encHeaders, hmt]
    simp only [List.append_nil]
    rw [hpat]
    exact splitFirst_none_append '\r' (S "\n\r\n") (encDisposition p) (S "\r\n\r")
      (encDisposition_no_cr hp) (by decide)
  | some mt =>
    have hmtcr : ∀ c ∈ mt, c ≠ '\r' :=
      fun c hc => (((wfPart_unpack hp).2.2.2.1 mt hmt).1 c hc).1
    rw [encHeaders, hmt, List.append_assoc, hpat]
    refine splitFirst_none_append '\r' (S "\n\r\n") (encDisposition p) _
      (encDisposition_no_cr hp) ?_
    rw [show S "\r\nContent-Type: " = '\r' :: ('\n' :: S "Content-Type: ") from by decide]
    rw [show ('\r' :: ('\n' :: S "Content-Type: ") ++ mt) ++ S "\r\n\r" =
      '\r' :: ('\n' :: ((S "Content-Type: " ++ mt) ++ S "\r\n\r")) from by simp]
    refine splitFirst_none_cons ?hb1 (splitFirst_none_cons ?hb2 ?hrest)
    case hb1 =>
      rw [show ('\r' :: S "\n\r\n") = S "\r\n" ++ S "\r\n" from by decide,
        show '\r' :: ('\n' :: ((S "Content-Type: " ++ mt) ++ S "\r\n\r")) =
          S "\r\n" ++ ((S "Content-Type: " ++ mt) ++ S "\r\n\r") from by
            rw [show S "\r\n" = ['\r', '\n'] from by decide]; simp,
        begins_cancel]
      rw [show S "Content-Type: " = 'C' :: S "ontent-Type: " from by decide]
      rw [show (('C' :: S "ontent-Type: ") ++ mt) ++ S "\r\n\r" =
        'C' :: ((S "ontent-Type: " ++ mt) ++ S "\r\n\r") from by simp]
      rw [show S "\r\n" = '\r' :: ['\n'] from by decide]
      simp [begins]
    case hb2 =>
      rw [show ('\r' :: S "\n\r\n") = '\r' :: S "\n\r\n" from rfl]
      have hne : ('\r' == '\n') = false := by decide
      simp [begins, hne]
    case hrest =>
      refine splitFirst_none_append '\r' (S "\n\r\n") (S "Content-Type: " ++ mt)
        (S "\r\n\r") ?_ (by decide)
      intro c hc
      rcases List.mem_append.mp hc with hc | hc
      · exact (by decide : ∀ x ∈ S "Content-Type: ", x ≠ '\r') c hc
      · exact hmtcr c hc

theorem encDisposition_colon (p : MultipartFormData) :
    encDisposition p = S "Content-Disposition" ++ S ":" ++ (S " " ++ dispVal p) := by
  rw [encDisposition, dispVal,
    show S "Content-Disposition: form-data; name=\"" =
      S "Content-Disposition" ++ S ":" ++ S " " ++ S "form-data; name=\"" from by decide]
  simp

theorem encDisposition_split (p : MultipartFormData) :
    splitFirst (S ":") (encDisposition p) =
      some (S "Content-Disposition", S " " ++ dispVal p) := by
  rw [encDisposition_colon]
  exact @splitFirst_exact (S ":") (S "Content-Disposition") (S " " ++ dispVal p)
    (by decide) (by decide)

/-- One non-continuation, colon-carrying step of the header loop. -/
theorem headerLines_step (c : Char) (t : Str) (rest : List Str) (d : Headers)
    (key : Str) (hcont : (c == ' ' || c == '\t') = false)
    (k0 v0 : Str) (hsplit : splitFirst (S ":") (c :: t) = some (k0, v0)) :
    headerLines ((c :: t) :: rest) d key =
      match ciLookup d (pyStrip k0) with
      | some old =>
          headerLines rest (ciPut d (pyStrip k0) (old ++ S ", " ++ pyStrip v0))
            (pyStrip k0)
      | none => headerLines rest (ciPut d (pyStrip k0) (pyStrip v0)) (pyStrip k0) := by
  simp only [headerLines]
  rw [if_neg (by simp [hcont])]
  rw [hsplit]

theorem hdDict_cd (p : MultipartFormData) :
    ciLookup (hdDict p) (S "Content-Disposition") = some (dispVal p) := by
  cases hmt : p.mimetype <;> simp [hdDict, hmt, ciLookup, List.find?]

theorem hdDict_ct (p : MultipartFormData) :
    ciLookup (hdDict p) (S "Content-Type") = p.mimetype := by
  have hne : (pyLower (S "Content-Disposition") == pyLower (S "Content-Type")) = false :=
    by decide
  cases hmt : p.mimetype <;> simp [hdDict, hmt, ciLookup, List.find?, hne]

/-- `parse_http_headers` recovers exactly the two-header dictionary of
an encoded section. -/
theorem enc_headers_parse {B : Str} {p : MultipartFormData} (hp : wfPart B p = true) :
    parse_http_headers (encHeaders p) = .ok (hdDict p) := by
  obtain ⟨tC, hcons⟩ : ∃ t, encDisposition p = 'C' :: t :=
    ⟨S "ontent-Disposition: form-data; name=\"" ++ p.fieldname ++
        S "\"; filename=\"" ++ p.filename ++ S "\"",
      by
        rw [encDisposition,
          show S "Content-Disposition: form-data; name=\"" =
            'C' :: S "ontent-Disposition: form-data; name=\"" from by decide]
        simp⟩
  have hsplitC : splitFirst (S ":") ('C' :: tC) =
      some (S "Content-Disposition", S " " ++ dispVal p) := by
    rw [← hcons]
    exact encDisposition_split p
  have hkC : pyStrip (S "Content-Disposition") = S "Content-Disposition" := by decide
  cases hmt : p.mimetype with
  | none =>
    have hlines : pySplitAll (S "\r\n") (encHeaders p) = [encDisposition p] := by
      rw [encHeaders, hmt]
      simp only [List.append_nil]
      exact pySplitAll_no_sep _ _ (by
        rw [show S "\r\n" = '\r' :: S "\n" from by decide]
        exact splitFirst_none_of_not_mem _ _ _ (encDisposition_no_cr hp))
    rw [parse_http_headers, hlines, hcons,
      headerLines_step 'C' tC [] [] [] (by decide) _ _ hsplitC, hkC]
    rw [show ciLookup ([] : Headers) (S "Content-Disposition") = none from rfl]
    rw [strip_space_dispVal, hdDict, hmt]
    rfl
  | some mt =>
    have hmts : pyStrip mt = mt := ((wfPart_unpack hp).2.2.2.1 mt hmt).2
    have hmtcr : ∀ c ∈ mt, c ≠ '\r' :=
      fun c hc => (((wfPart_unpack hp).2.2.2.1 mt hmt).1 c hc).1
    obtain ⟨tT, hconsT⟩ : ∃ t, S "Content-Type: " ++ mt = 'C' :: t :=
      ⟨S "ontent-Type: " ++ mt,
        by
          rw [show S "Content-Type: " = 'C' :: S "ontent-Type: " from by decide]
          simp⟩
    have hsplitT : splitFirst (S ":") ('C' :: tT) =
        some (S "Content-Type", S " " ++ mt) := by
      rw [← hconsT]
      rw [show S "Content-Type: " ++ mt = S "Content-Type" ++ S ":" ++ (S " " ++ mt) from by
        rw [show S "Content-Type: " = S "Content-Type" ++ S ":" ++ S " " from by decide]
        simp]
      exact @splitFirst_exact (S ":") (S "Content-Type") (S " " ++ mt) (by decide) (by decide)
    have hlines : pySplitAll (S "\r\n") (encHeaders p) =
        [encDisposition p, S "Content-Type: " ++ mt] := by
      rw [encHeaders, hmt,
        show S "\r\nContent-Type: " = S "\r\n" ++ S "Content-Type: " from by decide]
      rw [show encDisposition p ++ (S "\r\n" ++ S "Content-Type: " ++ mt) =
        encDisposition p ++ S "\r\n" ++ (S "Content-Type: " ++ mt) from by simp]
      refine pySplitAll_two_cr _ _ (encDisposition_no_cr hp) ?_
      rw [show S "\r\n" = '\r' :: S "\n" from by decide]
      refine splitFirst_none_of_not_mem _ _ _ ?_
      intro c hc
      rcases List.mem_append.mp hc with hc | hc
      · exact (by decide : ∀ x ∈ S "Content-Type: ", x ≠ '\r') c hc
      · exact hmtcr c hc
    rw [parse_http_headers, hlines, hcons,
      headerLines_step 'C' tC [S "Content-Type: " ++ mt] [] [] (by decide) _ _ hsplitC,
      hkC]
    rw [show ciLookup ([] : Headers) (S "Content-Disposition") = none from rfl]
    rw [strip_space_dispVal]
    show headerLines [S "Content-Type: " ++ mt]
      [(S "Content-Disposition", dispVal p)] (S "Content-Disposition") = .ok (hdDict p)
    rw [hconsT, headerLines_step 'C' tT [] _ _ (by decide) _ _ hsplitT]
    rw [show pyStrip (S "Content-Type") = S "Content-Type" from by decide]
    rw [show ciLookup [(S "Content-Disposition", dispVal p)] (S "Content-Type") =
        none from by
      simp [ciLookup, List.find?,
        show (pyLower (S "Content-Disposition") == pyLower (S "Content-Type")) = false
          from by decide]]
    rw [show pyStrip (S " " ++ mt) = mt from by
      rw [show S " " ++ mt = ' ' :: mt from by
        rw [show S " " = [' '] from by decide]
        simp]
      rw [pyStrip_cons_space _ _ (by decide)]
      exact hmts]
    rw [hdDict, hmt]
    rfl

/-- `parse_content_disposition` recovers the field name and filename
from an encoded disposition value. -/
theorem dispVal_parse {B : Str} {p : MultipartFormData} (hp : wfPart B p = true) :
    parse_content_disposition (dispVal p) = (some p.fieldname, p.filename) := by
  obtain ⟨h1, h2f, h3, _, _⟩ := wfPart_unpack hp
  have hstrip : pyStrip (dispVal p) = dispVal p := dispVal_strip p
  have hbeg : begins (S "form-data;") (dispVal p) = true := by
    rw [show dispVal p = S "form-data;" ++
        (S " name=\"" ++ p.fieldname ++ S "\"; filename=\"" ++ p.filename ++ S "\"") from by
      rw [dispVal, show S "form-data; name=\"" = S "form-data;" ++ S " name=\"" from by decide]
      simp]
    exact begins_append _ _
  have hname : splitFirst (S "name=\"") (dispVal p) =
      some (S "form-data; ",
        p.fieldname ++ S "\"; filename=\"" ++ p.filename ++ S "\"") := by
    rw [show dispVal p = S "form-data; " ++ S "name=\"" ++
        (p.fieldname ++ S "\"; filename=\"" ++ p.filename ++ S "\"") from by
      rw [dispVal, show S "form-data; name=\"" = S "form-data; " ++ S "name=\"" from by decide]
      simp]
    exact @splitFirst_exact (S "name=\"") (S "form-data; ")
      (p.fieldname ++ S "\"; filename=\"" ++ p.filename ++ S "\"") (by decide) (by decide)
  have hquote1 : splitFirst (S "\"")
      (p.fieldname ++ S "\"; filename=\"" ++ p.filename ++ S "\"") =
      some (p.fieldname, S "; filename=\"" ++ p.filename ++ S "\"") := by
    rw [show p.fieldname ++ S "\"; filename=\"" ++ p.filename ++ S "\"" =
        p.fieldname ++ ('"' :: (S "; filename=\"" ++ p.filename ++ S "\"")) from by
      rw [show S "\"; filename=\"" = '"' :: S "; filename=\"" from by decide]
      simp]
    rw [show S "\"" = ['"'] from by decide]
    rw [splitFirst_append_left p.fieldname _ (fun c hc => (h1 c hc).1)]
    rw [splitFirst_pos (by simp [begins])]
    simp
  have hfname : splitFirst (S "filename=\"") (dispVal p) =
      some (S "form-data; name=\"" ++ p.fieldname ++ S "\"; ", p.filename ++ S "\"") := by
    rw [show dispVal p = (S "form-data; name=\"" ++ p.fieldname ++ S "\"; ") ++
        S "filename=\"" ++ (p.filename ++ S "\"") from by
      rw [dispVal, show S "\"; filename=\"" = S "\"; " ++ S "filename=\"" from by decide]
      simp]
    refine @splitFirst_exact (S "filename=\"")
      (S "form-data; name=\"" ++ p.fieldname ++ S "\"; ") (p.filename ++ S "\"")
      (by decide) ?_
    rw [show (S "filename=\"").dropLast = S "filename=" from by decide, containsSub]
    rw [show S "form-data; name=\"" ++ p.fieldname ++ S "\"; " ++ S "filename=" =
        S "form-data; name=" ++ (S "\"" ++ (p.fieldname ++ (S "\"" ++ S "; filename="))) from by
      rw [show S "form-data; name=\"" = S "form-data; name=" ++ S "\"" from by decide,
        show S "\"; " = S "\"" ++ S "; " from by decide,
        show (S "; filename=" : Str) = S "; " ++ S "filename=" from by decide]
      simp]
    rw [show S "\"" ++ (p.fieldname ++ (S "\"" ++ S "; filename=")) =
        S "\"" ++ p.fieldname ++ (S "\"" ++ S "; filename=") from by simp]
    have happ1 : splitFirst (S "filename=" ++ S "\"")
        (p.fieldname ++ (S "\"" ++ S "; filename=")) = none := by
      rw [show S "\"" ++ S "; filename=" = S "\"" ++ S "; filename=" from rfl]
      exact scan_last_quote (S "filename=") (by decide) (by decide) (S "; filename=")
        (by decide) p.fieldname (fun c hc => (h1 c hc).1) h2f
    have happ2 : splitFirst (S "filename=" ++ S "\"")
        (S "form-data; name=" ++ (S "\"" ++ (p.fieldname ++ (S "\"" ++ S "; filename=")))) =
        none :=
      scan_last_quote (S "filename=") (by decide) (by decide)
        (p.fieldname ++ (S "\"" ++ S "; filename=")) happ1 (S "form-data; name=")
        (by decide) (by decide)
    rw [show S "filename=\"" = S "filename=" ++ S "\"" from by decide]
    rw [show S "\"" ++ p.fieldname ++ (S "\"" ++ S "; filename=") =
        S "\"" ++ (p.fieldname ++ (S "\"" ++ S "; filename=")) from by simp]
    rw [happ2]
    rfl
  have hquote2 : splitFirst (S "\"") (p.filename ++ S "\"") = some (p.filename, []) := by
    rw [show S "\"" = ['"'] from by decide]
    rw [splitFirst_append_left p.filename _ (fun c hc => (h3 c hc).1)]
    rw [show splitFirst ['"'] (['"'] : Str) = some ([], []) from by decide]
    simp
  have hquote1n := hquote1
  simp only [List.append_assoc] at hquote1n
  simp [parse_content_disposition, hstrip, hbeg, hname, hquote1n, hfname, hquote2]

/-- Decoding one well-formed encoded section consumes it, inserts the
part, and continues on the remaining body. -/
theorem multipartGo_step {B : Str} {p : MultipartFormData} (hp : wfPart B p = true)
    (f : Nat) (T : Str) (d : FDict)
    (hstep : multipartStep d p.fieldname p = .ok (mpInsert d p)) :
    multipartGo (S "--" ++ B) (f + 1)
      ((S "--" ++ B) ++ (S "\r\n" ++ encHeaders p ++ S "\r\n\r\n" ++ p.data ++
        S "\r\n" ++ (S "--" ++ B) ++ T)) d =
      multipartGo (S "--" ++ B) f ((S "--" ++ B) ++ T) (mpInsert d p) := by
  have hbeg : begins ((S "--" ++ B) ++ S "\r\n")
      ((S "--" ++ B) ++ (S "\r\n" ++ encHeaders p ++ S "\r\n\r\n" ++ p.data ++
        S "\r\n" ++ (S "--" ++ B) ++ T)) = true :=
    begins_iff.mpr
      ⟨encHeaders p ++ S "\r\n\r\n" ++ (p.data ++ S "\r\n" ++ (S "--" ++ B) ++ T),
        by simp⟩
  have hdrop : ((S "--" ++ B) ++ (S "\r\n" ++ encHeaders p ++ S "\r\n\r\n" ++ p.data ++
      S "\r\n" ++ (S "--" ++ B) ++ T)).drop ((S "--" ++ B).length + 2) =
      encHeaders p ++ S "\r\n\r\n" ++ (p.data ++ S "\r\n" ++ (S "--" ++ B) ++ T) := by
    rw [show (S "--" ++ B) ++ (S "\r\n" ++ encHeaders p ++ S "\r\n\r\n" ++ p.data ++
        S "\r\n" ++ (S "--" ++ B) ++ T) =
      ((S "--" ++ B) ++ S "\r\n") ++
        (encHeaders p ++ S "\r\n\r\n" ++ (p.data ++ S "\r\n" ++ (S "--" ++ B) ++ T))
      from by simp]
    rw [show (S "--" ++ B).length + 2 = ((S "--" ++ B) ++ S "\r\n").length from by
      rw [List.length_append (S "--" ++ B) (S "\r\n"),
        show (S "\r\n").length = 2 from by decide]]
    exact List.drop_left _ _
  have hpart1 : pyPartition (S "\r\n\r\n")
      (encHeaders p ++ S "\r\n\r\n" ++ (p.data ++ S "\r\n" ++ (S "--" ++ B) ++ T)) =
      (encHeaders p, S "\r\n\r\n", p.data ++ S "\r\n" ++ (S "--" ++ B) ++ T) := by
    have hsf := @splitFirst_exact (S "\r\n\r\n") (encHeaders p)
      (p.data ++ S "\r\n" ++ (S "--" ++ B) ++ T) (by decide)
      (by
        rw [show (S "\r\n\r\n").dropLast = S "\r\n\r" from by decide]
        exact enc_headers_no4 hp)
    simp only [List.append_assoc] at hsf
    simp [pyPartition, hsf]
  have hpart2 : pyPartition (S "\r\n" ++ (S "--" ++ B))
      (p.data ++ S "\r\n" ++ (S "--" ++ B) ++ T) =
      (p.data, S "\r\n" ++ (S "--" ++ B), T) := by
    have hsf := @splitFirst_exact (S "\r\n" ++ (S "--" ++ B)) p.data T
      (by simp [S]) (wfPart_unpack hp).2.2.2.2
    rw [show p.data ++ S "\r\n" ++ (S "--" ++ B) ++ T =
      p.data ++ (S "\r\n" ++ (S "--" ++ B)) ++ T from by simp]
    simp only [List.append_assoc] at hsf
    simp [pyPartition, hsf]
  have heta : (⟨p.fieldname, p.mimetype, p.filename, p.data⟩ : MultipartFormData) = p := rfl
  simp only [multipartGo, hbeg, if_true, eq_self_iff_true, hdrop, hpart1, hpart2,
    enc_headers_parse hp, hdDict_ct, hdDict_cd, dispVal_parse hp, heta, hstep]

theorem compat_nil_dict (ps : List MultipartFormData) : Compat [] ps := by
  intro p _ _
  left
  rfl

theorem keyCons_tail {p : MultipartFormData} {ps : List MultipartFormData}
    (h : KeyCons (p :: ps)) : KeyCons ps :=
  fun a ha b hb => h a (by simp [ha]) b (by simp [hb])

theorem compat_step {d : FDict} {p : MultipartFormData} {ps : List MultipartFormData}
    (hc : Compat d (p :: ps)) (hk : KeyCons (p :: ps)) : Compat (mpInsert d p) ps := by
  intro q hq hqm
  by_cases he : partKey q = partKey p
  · have hpm : finishes (S "[]") p.fieldname = true := by
      rw [hk p (by simp) q (by simp [hq]) he.symm]
      exact hqm
    right
    have hpk : partKey p = p.fieldname.take (p.fieldname.length - 2) := by
      rw [partKey, if_pos hpm]
    rw [he, hpk]
    cases hlook : fdLookup d (p.fieldname.take (p.fieldname.length - 2)) with
    | none => exact ⟨[p], by simp [mpInsert, hpm, hlook, fdLookup_fdPut_self]⟩
    | some v =>
      cases v with
      | vstr w => exact ⟨[p], by simp [mpInsert, hpm, hlook, fdLookup_fdPut_self]⟩
      | vlist w => exact ⟨[p], by simp [mpInsert, hpm, hlook, fdLookup_fdPut_self]⟩
      | vpart w => exact ⟨[p], by simp [mpInsert, hpm, hlook, fdLookup_fdPut_self]⟩
      | vparts xs =>
        exact ⟨xs ++ [p], by simp [mpInsert, hpm, hlook, fdLookup_fdPut_self]⟩
  · rw [mpInsert_lookup_other d p (partKey q) he]
    exact hc q (by simp [hq]) hqm

theorem encTail_length (sep : Str) (ps : List MultipartFormData) :
    ps.length < (encTail sep ps).length := by
  induction ps with
  | nil =>
    rw [encTail]
    decide
  | cons p ps ih =>
    rw [encTail]
    simp only [List.length_append, List.length_cons,
      show (S "\r\n").length = 2 from by decide,
      show (S "\r\n\r\n").length = 4 from by decide]
    omega

theorem encodeMultipart_eq (B : Str) (ps : List MultipartFormData) :
    encodeMultipart B ps = (S "--" ++ B) ++ encTail (S "--" ++ B) ps := by
  induction ps with
  | nil =>
    rw [encodeMultipart, encTail]
    simp
  | cons p ps ih =>
    rw [encodeMultipart, List.map_cons, List.flatten_cons, encTail, encSection]
    rw [encodeMultipart] at ih
    simp only [List.append_assoc] at ih ⊢
    rw [ih]

/-- Decoding an entire encoded multipart body folds every part into the
dictionary. -/
theorem multipartGo_encTail {B : Str} :
    ∀ (ps : List MultipartFormData) (fuel : Nat) (d : FDict),
      (∀ p ∈ ps, wfPart B p = true) → KeyCons ps → Compat d ps →
      ps.length < fuel →
      multipartGo (S "--" ++ B) fuel ((S "--" ++ B) ++ encTail (S "--" ++ B) ps) d =
        .ok (mpFold d ps) := by
  intro ps
  induction ps with
  | nil =>
    intro fuel d _ _ _ hlt
    cases fuel with
    | zero => omega
    | succ f =>
      rw [encTail]
      have hbeg : begins (S "--" ++ (B ++ S "\r\n")) (S "--" ++ (B ++ S "--\r\n")) =
          false := by
        rw [begins_cancel, begins_cancel]
        decide
      simp only [multipartGo]
      rw [if_neg (by simp [hbeg])]
      rfl
  | cons p ps ih =>
    intro fuel d hwf hkc hcp hlt
    cases fuel with
    | zero => omega
    | succ f =>
      rw [encTail]
      have hstep : multipartStep d p.fieldname p = .ok (mpInsert d p) :=
        multipartStep_eq_mpInsert d p (hcp p (by simp))
      rw [show (S "--" ++ B) ++ (S "\r\n" ++ encHeaders p ++ S "\r\n\r\n" ++ p.data ++
          S "\r\n" ++ (S "--" ++ B) ++ encTail (S "--" ++ B) ps) =
        (S "--" ++ B) ++ (S "\r\n" ++ encHeaders p ++ S "\r\n\r\n" ++ p.data ++
          S "\r\n" ++ (S "--" ++ B) ++ encTail (S "--" ++ B) ps) from rfl]
      rw [multipartGo_step (hwf p (by simp)) f (encTail (S "--" ++ B) ps) d hstep]
      rw [show mpFold d (p :: ps) = mpFold (mpInsert d p) ps from rfl]
      exact ih f (mpInsert d p) (fun q hq => hwf q (by simp [hq])) (keyCons_tail hkc)
        (compat_step hcp hkc) (by simpa using Nat.lt_of_succ_lt_succ hlt)

/-- `parse_multipart_form_data` on the encoder's `Content-Type` header
extracts the boundary unchanged and enters the section loop. -/
theorem parse_mct (B contents : Str) (hB : wfBoundary B = true) :
    parse_multipart_form_data (multipartCType B) contents =
      multipartGo (S "--" ++ B) (contents.length + 1) contents [] := by
  have hBparts := hB
  simp only [wfBoundary, Bool.and_eq_true, List.all_eq_true, Bool.not_eq_true',
    Bool.or_eq_false_iff, beq_eq_false_iff_ne, beq_iff_eq] at hBparts
  have hBw : pyStrip (S "boundary=" ++ B) = S "boundary=" ++ B := hBparts.2
  have hBq : ∀ c ∈ B, c ≠ '"' := fun c hc => (hBparts.1 c hc).2
  have hsplit1 : splitFirst (S ";") (multipartCType B) =
      some (S "multipart/form-data", S " boundary=" ++ B) := by
    rw [show multipartCType B =
        S "multipart/form-data" ++ S ";" ++ (S " boundary=" ++ B) from by
      rw [multipartCType, show S "multipart/form-data; boundary=" =
        S "multipart/form-data" ++ S ";" ++ S " boundary=" from by decide]
      simp]
    exact @splitFirst_exact (S ";") (S "multipart/form-data") (S " boundary=" ++ B)
      (by decide) (by decide)
  have hstrip1 : pyStrip (S " boundary=" ++ B) = S "boundary=" ++ B := by
    rw [show S " boundary=" ++ B = ' ' :: (S "boundary=" ++ B) from by
      rw [show S " boundary=" = ' ' :: S "boundary=" from by decide]
      simp]
    rw [pyStrip_cons_space _ _ (by decide)]
    exact hBw
  have hlow : begins (S "boundary=") (pyLower (S "boundary=" ++ B)) = true := by
    rw [pyLower, List.map_append,
      show List.map Char.toLower (S "boundary=") = S "boundary=" from by decide]
    exact begins_append _ _
  have hsplit2 : splitFirst (S "=") (S "boundary=" ++ B) = some (S "boundary", B) := by
    rw [show S "boundary=" ++ B = S "boundary" ++ S "=" ++ B from by
      rw [show S "boundary=" = S "boundary" ++ S "=" from by decide]]
    exact @splitFirst_exact (S "=") (S "boundary") B (by decide) (by decide)
  have hnq : begins (S "\"") B = false := by
    rw [show S "\"" = ['"'] from by decide]
    cases B with
    | nil => rfl
    | cons c cs =>
      have hcc : ('"' == c) = false :=
        beq_eq_false_iff_ne.mpr (Ne.symm (hBq c (by simp)))
      simp [begins, hcc]
  simp only [parse_multipart_form_data, hsplit1, hstrip1, hlow, hsplit2, hnq,
    Bool.false_and, Bool.not_true, if_false, not_true_eq_false, if_true,
    Bool.false_eq_true, ite_false]

theorem nodup_key_entry_inj {d : FDict} (h : (d.map Prod.fst).Nodup)
    {e1 e2 : Str × FVal} (h1 : e1 ∈ d) (h2 : e2 ∈ d) (hk : e1.1 = e2.1) : e1 = e2 := by
  induction d with
  | nil => cases h1
  | cons a d ih =>
    rw [List.map_cons, List.nodup_cons] at h
    rcases List.mem_cons.mp h1 with rfl | h1m
    · rcases List.mem_cons.mp h2 with rfl | h2m
      · rfl
      · exact absurd (List.mem_map.mpr ⟨e2, h2m, hk.symm⟩) h.1
    · rcases List.mem_cons.mp h2 with rfl | h2m
      · exact absurd (List.mem_map.mpr ⟨e1, h1m, hk⟩) h.1
      · exact ih h.2 h1m h2m

theorem part_entry_key {e : Str × FVal} (he : goodEntry e) {x : MultipartFormData}
    (hx : x ∈ entryParts e) : partKey x = e.1 := by
  obtain ⟨k, v⟩ := e
  cases v with
  | vstr w => exact absurd he (by simp [goodEntry])
  | vlist w => exact absurd he (by simp [goodEntry])
  | vpart w =>
    simp only [entryParts, List.mem_singleton] at hx
    subst hx
    simp only [goodEntry] at he
    rw [partKey_of_plain (by rw [he.1]; exact he.2)]
    exact he.1
  | vparts xs =>
    simp only [entryParts] at hx
    simp only [goodEntry] at he
    exact partKey_of_marker (he.2 x hx)

theorem part_entry_marker_plain {k : Str} {w : MultipartFormData}
    (he : goodEntry (k, FVal.vpart w)) {x : MultipartFormData}
    (hx : x ∈ entryParts (k, FVal.vpart w)) :
    finishes (S "[]") x.fieldname = false := by
  simp only [entryParts, List.mem_singleton] at hx
  subst hx
  simp only [goodEntry] at he
  rw [he.1]
  exact he.2

theorem part_entry_marker_list {k : Str} {xs : List MultipartFormData}
    (he : goodEntry (k, FVal.vparts xs)) {x : MultipartFormData}
    (hx : x ∈ entryParts (k, FVal.vparts xs)) :
    finishes (S "[]") x.fieldname = true := by
  simp only [entryParts] at hx
  simp only [goodEntry] at he
  rw [he.2 x hx]
  exact finishes_marker k

theorem flatten_keyCons (d : FDict) (h : GoodDict d) : KeyCons (flattenD d) := by
  intro p hp q hq hk
  obtain ⟨e1, he1, hpe⟩ := flattenD_mem.mp hp
  obtain ⟨e2, he2, hqe⟩ := flattenD_mem.mp hq
  have hk1 : partKey p = e1.1 := part_entry_key (h.2 e1 he1) hpe
  have hk2 : partKey q = e2.1 := part_entry_key (h.2 e2 he2) hqe
  have he12 : e1 = e2 := nodup_key_entry_inj h.1 he1 he2 (by rw [← hk1, ← hk2, hk])
  subst he12
  obtain ⟨k, v⟩ := e1
  cases v with
  | vstr w => exact absurd (h.2 _ he1) (by simp [goodEntry])
  | vlist w => exact absurd (h.2 _ he1) (by simp [goodEntry])
  | vpart w =>
    rw [part_entry_marker_plain (h.2 _ he1) hpe, part_entry_marker_plain (h.2 _ he1) hqe]
  | vparts xs =>
    rw [part_entry_marker_list (h.2 _ he1) hpe, part_entry_marker_list (h.2 _ he1) hqe]

/-- C7: for every well-formed multipart body (well-formed boundary,
parts whose names, filenames and media types cannot corrupt the
framing, and no field name used both with and without the `[]` list
marker), decoding with `parse_multipart_form_data` succeeds, and
re-encoding the resulting parts with the same boundary yields a body
that decodes to exactly the same dictionary of
(field name, media type, filename, bytes) tuples. -/
theorem claim_C7 (B : Str) (ps : List MultipartFormData)
    (hB : wfBoundary B = true) (hps : ∀ p ∈ ps, wfPart B p = true)
    (hkc : KeyCons ps) :
    ∃ d : FDict,
      parse_multipart_form_data (multipartCType B) (encodeMultipart B ps) = .ok d ∧
      parse_multipart_form_data (multipartCType B) (encodeMultipart B (flattenD d)) =
        .ok d := by
  refine ⟨mpFold [] ps, ?_, ?_⟩
  · rw [parse_mct B _ hB, encodeMultipart_eq]
    refine multipartGo_encTail ps _ [] hps hkc (compat_nil_dict ps) ?_
    have := encTail_length (S "--" ++ B) ps
    rw [List.length_append]
    omega
  · have hgood : GoodDict (mpFold [] ps) := mpFold_good [] ps goodDict_nil
    have hwf2 : ∀ q ∈ flattenD (mpFold [] ps), wfPart B q = true := by
      intro q hq
      rcases mpFold_flatten_mem hq with hq2 | hq2
      · exact absurd hq2 (by simp [flattenD])
      · exact hps q hq2
    have hkc2 : KeyCons (flattenD (mpFold [] ps)) := flatten_keyCons _ hgood
    rw [parse_mct B _ hB, encodeMultipart_eq]
    rw [show (Except.ok (mpFold [] ps) : Except PyErr FDict) =
        Except.ok (mpFold [] (flattenD (mpFold [] ps))) from by
      rw [mpFold_flatten _ hgood]]
    refine multipartGo_encTail _ _ [] hwf2 hkc2 (compat_nil_dict _) ?_
    have := encTail_length (S "--" ++ B) (flattenD (mpFold [] ps))
    rw [List.length_append]
    omega

theorem claim_C7_witness :
    wfBoundary (S "B") = true ∧
    (∀ p ∈ [(⟨S "f", none, S "a.txt", S "hi"⟩ : MultipartFormData)],
      wfPart (S "B") p = true) ∧
    ∃ d : FDict,
      parse_multipart_form_data (multipartCType (S "B"))
        (encodeMultipart (S "B") [⟨S "f", none, S "a.txt", S "hi"⟩]) = .ok d ∧
      parse_multipart_form_data (multipartCType (S "B"))
        (encodeMultipart (S "B") (flattenD d)) = .ok d :=
  ⟨by decide, by decide,
    claim_C7 (S "B") [⟨S "f", none, S "a.txt", S "hi"⟩] (by decide) (by decide)
      (fun p hp q hq _ => by
        rw [List.mem_singleton.mp hp, List.mem_singleton.mp hq])⟩

/-- C3 counterexample: a multipart section whose `Content-Disposition`
header is missing entirely does not get a default field name — the
parser raises `KeyError` at `section_headers["Content-Disposition"]`
(`http_helpers.py` line 198) and the whole request is aborted, contrary
to the claim that such a section is recovered locally. -/
theorem claim_C3_counterexample :
    parse_multipart_form_data (S "multipart/form-data; boundary=B")
      (S "--B\r\nContent-Type: text/plain\r\n\r\nhi\r\n--B--\r\n") =
      .error .keyError := by decide

/-- C3 (amended): a section whose `Content-Disposition` header is
present (and survives `strip()`) but does not begin with `form-data;`
is recovered locally — the parser substitutes the default field name
`field` and filename `unknown-file.txt`, stores the section under
`field`, and continues decoding the remaining body.  (A section whose
`Content-Disposition` header is missing raises `KeyError`, and a
`form-data;` disposition without a locatable `name="` raises
`AttributeError`; both abort the request — see the counterexample.) -/
theorem claim_C3_amended (B D data T : Str) (f : Nat) (d : FDict)
    (hDcr : ∀ c ∈ D, c ≠ '\r')
    (hDs : pyStrip D = D)
    (hDfd : begins (S "form-data;") D = false)
    (hdata : containsSub (S "\r\n" ++ (S "--" ++ B))
      (data ++ (S "\r\n" ++ (S "--" ++ B)).dropLast) = false) :
    multipartGo (S "--" ++ B) (f + 1)
      ((S "--" ++ B) ++ (S "\r\n" ++ (S "Content-Disposition: " ++ D) ++ S "\r\n\r\n" ++
        data ++ S "\r\n" ++ (S "--" ++ B) ++ T)) d =
      multipartGo (S "--" ++ B) f ((S "--" ++ B) ++ T)
        (fdPut d (S "field")
          (.vpart ⟨S "field", none, S "unknown-file.txt", data⟩)) := by
  have hbeg : begins ((S "--" ++ B) ++ S "\r\n")
      ((S "--" ++ B) ++ (S "\r\n" ++ (S "Content-Disposition: " ++ D) ++ S "\r\n\r\n" ++
        data ++ S "\r\n" ++ (S "--" ++ B) ++ T)) = true :=
    begins_iff.mpr
      ⟨(S "Content-Disposition: " ++ D) ++ S "\r\n\r\n" ++
          (data ++ S "\r\n" ++ (S "--" ++ B) ++ T),
        by simp⟩
  have hdrop : ((S "--" ++ B) ++ (S "\r\n" ++ (S "Content-Disposition: " ++ D) ++
      S "\r\n\r\n" ++ data ++ S "\r\n" ++ (S "--" ++ B) ++ T)).drop
        ((S "--" ++ B).length + 2) =
      (S "Content-Disposition: " ++ D) ++ S "\r\n\r\n" ++
        (data ++ S "\r\n" ++ (S "--" ++ B) ++ T) := by
    rw [show (S "--" ++ B) ++ (S "\r\n" ++ (S "Content-Disposition: " ++ D) ++
        S "\r\n\r\n" ++ data ++ S "\r\n" ++ (S "--" ++ B) ++ T) =
      ((S "--" ++ B) ++ S "\r\n") ++
        ((S "Content-Disposition: " ++ D) ++ S "\r\n\r\n" ++
          (data ++ S "\r\n" ++ (S "--" ++ B) ++ T)) from by simp]
    rw [show (S "--" ++ B).length + 2 = ((S "--" ++ B) ++ S "\r\n").length from by
      rw [List.length_append (S "--" ++ B) (S "\r\n"),
        show (S "\r\n").length = 2 from by decide]]
    exact List.drop_left _ _
  have hno4 : containsSub (S "\r\n\r\n")
      ((S "Content-Disposition: " ++ D) ++ S "\r\n\r") = false := by
    rw [containsSub]
    suffices h : splitFirst (S "\r\n\r\n")
        ((S "Content-Disposition: " ++ D) ++ S "\r\n\r") = none by
      rw [h]; rfl
    rw [List.append_assoc, show S "\r\n\r\n" = '\r' :: S "\n\r\n" from by decide]
    exact splitFirst_none_append '\r' (S "\n\r\n") (S "Content-Disposition: ") _
      (by decide)
      (splitFirst_none_append '\r' (S "\n\r\n") D (S "\r\n\r") hDcr (by decide))
  have hpart1 : pyPartition (S "\r\n\r\n")
      ((S "Content-Disposition: " ++ D) ++ S "\r\n\r\n" ++
        (data ++ S "\r\n" ++ (S "--" ++ B) ++ T)) =
      (S "Content-Disposition: " ++ D, S "\r\n\r\n",
        data ++ S "\r\n" ++ (S "--" ++ B) ++ T) := by
    have hsf := @splitFirst_exact (S "\r\n\r\n") (S "Content-Disposition: " ++ D)
      (data ++ S "\r\n" ++ (S "--" ++ B) ++ T) (by decide)
      (by
        rw [show (S "\r\n\r\n").dropLast = S "\r\n\r" from by decide]
        exact hno4)
    simp only [List.append_assoc] at hsf
    simp [pyPartition, hsf]
  have hpart2 : pyPartition (S "\r\n" ++ (S "--" ++ B))
      (data ++ S "\r\n" ++ (S "--" ++ B) ++ T) =
      (data, S "\r\n" ++ (S "--" ++ B), T) := by
    have hsf := @splitFirst_exact (S "\r\n" ++ (S "--" ++ B)) data T
      (by simp [S]) hdata
    rw [show data ++ S "\r\n" ++ (S "--" ++ B) ++ T =
      data ++ (S "\r\n" ++ (S "--" ++ B)) ++ T from by simp]
    simp only [List.append_assoc] at hsf
    simp [pyPartition, hsf]
  have hlines : pySplitAll (S "\r\n") (S "Content-Disposition: " ++ D) =
      [S "Content-Disposition: " ++ D] := by
    refine pySplitAll_no_sep _ _ ?_
    rw [show S "\r\n" = '\r' :: S "\n" from by decide]
    refine splitFirst_none_of_not_mem _ _ _ ?_
    intro c hc
    rcases List.mem_append.mp hc with hc | hc
    · exact (by decide : ∀ x ∈ S "Content-Disposition: ", x ≠ '\r') c hc
    · exact hDcr c hc
  obtain ⟨tD, hconsD⟩ : ∃ t, S "Content-Disposition: " ++ D = 'C' :: t :=
    ⟨S "ontent-Disposition: " ++ D,
      by
        rw [show S "Content-Disposition: " = 'C' :: S "ontent-Disposition: " from by decide]
        simp⟩
  have hsplitD : splitFirst (S ":") ('C' :: tD) =
      some (S "Content-Disposition", S " " ++ D) := by
    rw [← hconsD]
    rw [show S "Content-Disposition: " ++ D =
        S "Content-Disposition" ++ S ":" ++ (S " " ++ D) from by
      rw [show S "Content-Disposition: " =
        S "Content-Disposition" ++ S ":" ++ S " " from by decide]
      simp]
    exact @splitFirst_exact (S ":") (S "Content-Disposition") (S " " ++ D)
      (by decide) (by decide)
  have hhd : parse_http_headers (S "Content-Disposition: " ++ D) =
      .ok [(S "Content-Disposition", D)] := by
    rw [parse_http_headers, hlines, hconsD,
      headerLines_step 'C' tD [] [] [] (by decide) _ _ hsplitD,
      show pyStrip (S "Content-Disposition") = S "Content-Disposition" from by decide]
    rw [show ciLookup ([] : Headers) (S "Content-Disposition") = none from rfl]
    rw [show pyStrip (S " " ++ D) = D from by
      rw [show S " " ++ D = ' ' :: D from by
        rw [show S " " = [' '] from by decide]
        simp]
      rw [pyStrip_cons_space _ _ (by decide)]
      exact hDs]
    rfl
  have hcd : ciLookup [(S "Content-Disposition", D)] (S "Content-Disposition") =
      some D := by
    simp [ciLookup, List.find?]
  have hct : ciLookup [(S "Content-Disposition", D)] (S "Content-Type") = none := by
    simp [ciLookup, List.find?,
      show (pyLower (S "Content-Disposition") == pyLower (S "Content-Type")) = false
        from by decide]
  have hdisp : parse_content_disposition D =
      (some (S "field"), S "unknown-file.txt") := by
    simp [parse_content_disposition, hDs, hDfd]
  have hstep : multipartStep d (S "field")
      ⟨S "field", none, S "unknown-file.txt", data⟩ =
      .ok (fdPut d (S "field")
        (.vpart ⟨S "field", none, S "unknown-file.txt", data⟩)) := by
    simp [multipartStep, show finishes (S "[]") (S "field") = false from by decide]
  simp only [multipartGo, hbeg, if_true, eq_self_iff_true, hdrop, hpart1, hpart2,
    hhd, hct, hcd, hdisp, hstep]

theorem claim_C3_amended_witness :
    (∀ c ∈ S "attachment", c ≠ '\r') ∧
    pyStrip (S "attachment") = S "attachment" ∧
    begins (S "form-data;") (S "attachment") = false ∧
    containsSub (S "\r\n" ++ (S "--" ++ S "B"))
      (S "hi" ++ (S "\r\n" ++ (S "--" ++ S "B")).dropLast) = false ∧
    multipartGo (S "--" ++ S "B") 1
      ((S "--" ++ S "B") ++ (S "\r\n" ++ (S "Content-Disposition: " ++ S "attachment") ++
        S "\r\n\r\n" ++ S "hi" ++ S "\r\n" ++ (S "--" ++ S "B") ++ S "--\r\n")) [] =
      multipartGo (S "--" ++ S "B") 0 ((S "--" ++ S "B") ++ S "--\r\n")
        (fdPut [] (S "field")
          (.vpart ⟨S "field", none, S "unknown-file.txt", S "hi"⟩)) :=
  ⟨by decide, by decide, by decide, by decide,
    claim_C3_amended (S "B") (S "attachment") (S "hi") (S "--\r\n") 0 []
      (by decide) (by decide) (by decide) (by decide)⟩

end FileShare
